import Mathlib

/-!
Verification of the specification of the `ensemble-net` NCAR data tools against a
shallow embedding of `src/ensemble_net/data_tools/ncar.py`.

Modelling conventions:
* `datetime` values are encoded as natural numbers in `YYYYMMDDHH` form; comparison of
  such encodings agrees with chronological comparison of the encoded instants.
* File-system paths are represented by the inductive types `RawPath` / `LocalFile`
  (the format strings `grib_file_format`, `diags_file_format` and the processed-file
  name template are injective encodings of init date, member and forecast hour, so an
  inductive path type is a faithful rendering of the generated path strings).
* The file system is explicit state: for the retrieval code a list of existing local
  files, for the ingestion code an association list from paths to file contents.
* Network transfer is modelled by an oracle `att : RawPath → Nat → Bool` giving the
  outcome of each GET attempt (attempt `0` is the first try, attempt `1` the retry);
  a successful attempt atomically creates the local file.
* GRIB decoding via `pygrib` is modelled at the level the Python code observes it: a
  grib file is a list of `(key, payload)` records, where `key` abstracts the
  parameter/category/level triple used by `pygrib.index(...).select` and `payload`
  abstracts the decoded 2-D field; `select` returns the matching records in file
  order and decoding the latitude/longitude geometry succeeds on any existing file.
* Only warning-level prints are collected in the `log` components; purely
  informational progress prints are not modelled.
* Directory creation and the bookkeeping of `dataset_init_dates` during planning
  have no observable effect on any property stated here and are omitted.
-/

namespace EnsembleNet

/-! ### Universal parameters (`ncar.py` lines 46-62) -/

/-- Start of available data, `datetime(2015, 4, 21)` as a `YYYYMMDDHH` encoding. -/
def data_start_date : Nat := 2015042100

/-- End of available data, `datetime(2017, 12, 31)`. -/
def data_end_date : Nat := 2017123100

/-- Format cutover, `datetime(2015, 9, 1)`: GRIB1 before, GRIB2 on or after. -/
def data_grib1to2_date : Nat := 2015090100

/-- Raw source files of a run: the grib file (with its GRIB2 variant marked by `g2`,
corresponding to the trailing `2` in the file name) and the diagnostics netCDF file.
Fields mirror the format strings of `ncar.py` lines 47-48. -/
inductive RawPath where
  | grib (date member hour : Nat) (g2 : Bool)
  | diags (date member hour : Nat)
deriving DecidableEq

/-- A path that can exist on the local disk: a raw file, its `.gz`-compressed variant,
or the processed archive `processed/<date>.nc` of a run. -/
inductive LocalFile where
  | plain (p : RawPath)
  | gz (p : RawPath)
  | processed (date : Nat)
deriving DecidableEq

/-- Embedding of `_check_exists` (ncar.py lines 24-37) for the retrieval code, where
only existence matters: the file exists under its exact name or with a `.gz` suffix. -/
def _check_exists (fs : List LocalFile) (p : RawPath) : Bool :=
  fs.contains (LocalFile.plain p) || fs.contains (LocalFile.gz p)

/-- Coordinate vocabularies of an `NCARArray` object: `member_coord` and
`forecast_hour_coord` (ncar.py lines 94-95). -/
structure NCARConfig where
  member_coord : List Nat
  forecast_hour_coord : List Nat
deriving DecidableEq

/-- The default vocabularies: members `1..10`, forecast hours `0..48`. -/
def defaultNcar : NCARConfig :=
  { member_coord := List.range' 1 10, forecast_hour_coord := List.range 49 }

/-! ### Retrieval planning (`retrieve`, ncar.py lines 233-267) -/

/-- Warning printed for an init date outside the valid data window. -/
def outOfRangeWarning (d : Nat) : String :=
  "Warning: doing nothing for init date " ++ toString d ++ ", out of range"

/-- Warning printed for a member outside `member_coord`. -/
def badMemberWarning : String :=
  "Warning: I am only set up to retrieve members within member_coord"

/-- Warning printed for a forecast hour outside `forecast_hour_coord`. -/
def badHourWarning : String :=
  "Warning: I am only set up to retrieve forecast hours within forecast_hour_coord"

/-- Result of the planning phase of `retrieve`: the `raw_files` listing (each entry a
path plus the remote suffix flag, `true` meaning the remote object carries a `.gz`
suffix) and the warnings printed while planning. -/
structure PlanResult where
  raw_files : List (RawPath × Bool)
  log : List String
deriving DecidableEq

/-- Files planned for one (date, member, forecast hour) unit (ncar.py lines 255-267):
the optional diagnostics netCDF file, then the GRIB1 file (compressed) for dates
before the cutover or the GRIB2 file (uncompressed) from the cutover on. -/
def planUnit (d member hour : Nat) (get_ncar_netcdf : Bool) : List (RawPath × Bool) :=
  (if get_ncar_netcdf then [(RawPath.diags d member hour, true)] else []) ++
  (if d < data_grib1to2_date then [(RawPath.grib d member hour false, true)]
   else [(RawPath.grib d member hour true, false)])

/-- The forecast-hour loop of the planner for a fixed date and member. -/
def planHours (cfg : NCARConfig) (d member : Nat) (g : Bool) :
    List Nat → PlanResult
  | [] => ⟨[], []⟩
  | h :: rest =>
    let r := planHours cfg d member g rest
    if cfg.forecast_hour_coord.contains h then
      ⟨planUnit d member h g ++ r.raw_files, r.log⟩
    else
      ⟨r.raw_files, badHourWarning :: r.log⟩

/-- The member loop of the planner for a fixed date. -/
def planMembers (cfg : NCARConfig) (d : Nat) (hours : List Nat) (g : Bool) :
    List Nat → PlanResult
  | [] => ⟨[], []⟩
  | m :: rest =>
    let r := planMembers cfg d hours g rest
    if cfg.member_coord.contains m then
      let rh := planHours cfg d m g hours
      ⟨rh.raw_files ++ r.raw_files, rh.log ++ r.log⟩
    else
      ⟨r.raw_files, badMemberWarning :: r.log⟩

/-- Planning for a single init date (ncar.py lines 237-267): dates outside the valid
window contribute no files, only a warning. -/
def planDate (cfg : NCARConfig) (members hours : List Nat) (g : Bool) (d : Nat) :
    PlanResult :=
  if d < data_start_date || d > data_end_date then ⟨[], [outOfRangeWarning d]⟩
  else planMembers cfg d hours g members

/-- The whole planning pass of `retrieve` over a list of init dates. -/
def planDates (cfg : NCARConfig) (dates members hours : List Nat) (g : Bool) :
    PlanResult :=
  match dates with
  | [] => ⟨[], []⟩
  | d :: rest =>
    let rd := planDate cfg members hours g d
    let r := planDates cfg rest members hours g
    ⟨rd.raw_files ++ r.raw_files, rd.log ++ r.log⟩

/-! ### Retrieval fetching (`retrieve`, ncar.py lines 285-309) -/

/-- The local path a download is written to: the raw path with the remote `.gz`
suffix appended when present (`local_file = local_file + file_tuple[1]`). -/
def addSuffix (p : RawPath) (gzsuffix : Bool) : LocalFile :=
  if gzsuffix then LocalFile.gz p else LocalFile.plain p

/-- Warning printed when the first GET for a file fails and a retry is started. -/
def retryWarning : String := "warning: failed to download, retrying"

/-- Warning printed when the retry fails as well and the file is given up. -/
def failWarning : String := "warning: failed to download"

/-- Result of the fetch phase: the file system afterwards, the raw paths for which a
download was attempted, and the warnings printed. -/
structure FetchResult where
  fs : List LocalFile
  downloads : List RawPath
  log : List String
deriving DecidableEq

/-- Fetching one planned file (ncar.py lines 285-309): skip it if it already exists
locally (exact name or `.gz`), otherwise GET it; on failure retry exactly once; on a
second failure log a warning and give up on this file. -/
def fetchOne (att : RawPath → Nat → Bool) (t : RawPath × Bool) (fs : List LocalFile) :
    FetchResult :=
  if _check_exists fs t.1 then ⟨fs, [], []⟩
  else if att t.1 0 then ⟨addSuffix t.1 t.2 :: fs, [t.1], []⟩
  else if att t.1 1 then ⟨addSuffix t.1 t.2 :: fs, [t.1], [retryWarning]⟩
  else ⟨fs, [t.1], [retryWarning, failWarning]⟩

/-- The fetch loop over all planned files. -/
def fetchFiles (att : RawPath → Nat → Bool) :
    List (RawPath × Bool) → List LocalFile → FetchResult
  | [], fs => ⟨fs, [], []⟩
  | t :: rest, fs =>
    let r := fetchOne att t fs
    let rr := fetchFiles att rest r.fs
    ⟨rr.fs, r.downloads ++ rr.downloads, r.log ++ rr.log⟩

/-! ### Ingestion (`write`, ncar.py lines 311-600)

The file system is now an association list from `LocalFile` paths to contents; the
canonical archive of a run lives at `LocalFile.processed date` and its content
records which coordinate variables were initialized and every variable slot created
and 2-D field written. -/

/-- Content of a processed netCDF archive: whether the time/member/fhour coordinate
variables were created, whether latitude/longitude were written, the variable slots
created, and the list of (variable, member index, hour index, payload) field writes
performed. -/
structure Archive where
  coordsInit : Bool
  latlon : Bool
  vars : List String
  writes : List (String × Nat × Nat × Nat)
deriving DecidableEq

/-- Content of a file on disk, as the ingestion code observes it. -/
inductive FileContent where
  | gribContent (recs : List (Nat × Nat))
  | diagsContent (dvars : List (String × Nat))
  | archiveContent (a : Archive)
deriving DecidableEq

/-- A freshly created, still empty archive. -/
def Archive.empty : Archive := ⟨false, false, [], []⟩

/-- File system of the ingestion code. -/
abbrev FileSys := List (LocalFile × FileContent)

/-- Lookup of a path (the first matching entry, mirroring a real file system in which
paths are unique). -/
def fsLookup : FileSys → LocalFile → Option FileContent
  | [], _ => none
  | e :: rest, f => if e.1 = f then some e.2 else fsLookup rest f

/-- `os.remove`. -/
def fsRemove (fs : FileSys) (f : LocalFile) : FileSys :=
  fs.filter (fun e => decide (e.1 ≠ f))

/-- Creating or overwriting a file. -/
def fsSet (fs : FileSys) (f : LocalFile) (c : FileContent) : FileSys :=
  (f, c) :: fsRemove fs f

/-- `_check_exists(file_name, path=True)` for the ingestion code: the file under its
exact name, or else its `.gz` variant, together with the found path. -/
def checkExistsPath (fs : FileSys) (p : RawPath) : Option (LocalFile × FileContent) :=
  match fsLookup fs (LocalFile.plain p) with
  | some c => some (LocalFile.plain p, c)
  | none =>
    match fsLookup fs (LocalFile.gz p) with
    | some c => some (LocalFile.gz p, c)
    | none => none

/-- `_unzip` (ncar.py lines 40-43): a `.gz` file is replaced in place by its
decompressed version; anything else is left alone. -/
def _unzip (fs : FileSys) (lf : LocalFile) : FileSys :=
  match lf with
  | LocalFile.gz p =>
    match fsLookup fs (LocalFile.gz p) with
    | some c => fsSet (fsRemove fs (LocalFile.gz p)) (LocalFile.plain p) c
    | none => fs
  | _ => fs

/-- Per-run mutable state while `write` processes one init date: the file system, the
open netCDF archive (`nc_fid`), the `init_coord` flag, and the warnings printed. -/
structure RunState where
  fs : FileSys
  arch : Archive
  initCoord : Bool
  log : List String
deriving DecidableEq

/-- Warning printed when a raw file is not found (`read_write_grib` /
`read_write_diags`). -/
def fileNotFoundWarning : String := "Warning: file not found"

/-- Warning printed when an existing raw file cannot be decoded at all (the catch-all
handler around the decode). -/
def decodeFailedWarning : String := "Warning: failed to write to netCDF file"

/-- Warning printed by the `write` loop when no grib file yields coordinates for this
unit (`file not found for coordinates; trying the next one`). -/
def coordsNotFoundWarning : String := "Warning: file not found for coordinates"

/-- Warning printed when a requested grib variable has no matching record. -/
def gribNotFoundWarning (v : String) : String :=
  "Warning: grib variable " ++ v ++ " not found in file"

/-- Warning printed (only in verbose mode) when several grib records match one
parameter key combination. -/
def multipleMatchWarning (v : String) : String :=
  "Warning: found multiple matches for " ++ v ++ "; using the last"

/-- Notice printed by `write` when called with an empty variables list. -/
def noVariablesNotice : String :=
  "NCARArray.write: no variables specified; will do nothing."

/-- `pygrib.index(...).select(...)`: the payloads of the records matching a key, in
file order. -/
def gribSelect (recs : List (Nat × Nat)) (key : Nat) : List Nat :=
  (recs.filter (fun r => r.1 == key)).map (fun r => r.2)

/-- `nc_fid.createVariable` on first encounter of a variable name. -/
def createVar (a : Archive) (v : String) : Archive :=
  if a.vars.contains v then a else { a with vars := a.vars ++ [v] }

/-- `read_write_grib_lat_lon` (ncar.py lines 395-429): decodes the 2-D grid geometry
from an existing grib file and writes the latitude/longitude variables; a missing
file is an `IOError` the caller catches. Decoding is modelled as succeeding on any
existing file. Returns the new state and whether it succeeded. -/
def read_write_grib_lat_lon (p : RawPath) (s : RunState) : RunState × Bool :=
  match checkExistsPath s.fs p with
  | none => (s, false)
  | some (lf, _) =>
    ({ s with fs := _unzip s.fs lf, arch := { s.arch with latlon := true } }, true)

/-- One row of the parameter table inside `read_write_grib` (ncar.py lines 452-487):
if the row's variable is requested, create its slot if needed, select the matching
records for the row's key, write the last match (warning in verbose mode when there
are several), or log a warning when there is no match. -/
def read_write_grib_row (varList : List String) (verbose : Bool)
    (memberIdx timeIdx : Nat) (recs : List (Nat × Nat)) (s : RunState)
    (row : String × Nat) : RunState :=
  if varList.contains row.1 then
    match (gribSelect recs row.2).getLast? with
    | none =>
      { s with
        arch := createVar s.arch row.1
        log := s.log ++ [gribNotFoundWarning row.1] }
    | some payload =>
      { s with
        arch := { createVar s.arch row.1 with
          writes := (createVar s.arch row.1).writes ++
            [(row.1, memberIdx, timeIdx, payload)] },
        log := if verbose && decide (1 < (gribSelect recs row.2).length) then
            s.log ++ [multipleMatchWarning row.1]
          else s.log }
  else s

/-- `read_write_grib` (ncar.py lines 431-489): warn and return if the raw grib file
is missing, otherwise decompress it if needed and run every parameter-table row
against its records. -/
def read_write_grib (table : List (String × Nat)) (varList : List String)
    (verbose : Bool) (memberIdx timeIdx : Nat) (p : RawPath) (s : RunState) :
    RunState :=
  match checkExistsPath s.fs p with
  | none => { s with log := s.log ++ [fileNotFoundWarning] }
  | some (lf, c) =>
    let s1 : RunState := { s with fs := _unzip s.fs lf }
    match c with
    | FileContent.gribContent recs =>
      table.foldl (read_write_grib_row varList verbose memberIdx timeIdx recs) s1
    | _ => { s1 with log := s1.log ++ [decodeFailedWarning] }

/-- The `REFD_MAX` to `REFC` alias applied to diagnostic variable names. -/
def diagsAlias (v : String) : String := if v == "REFD_MAX" then "REFC" else v

/-- One stored variable of the diagnostics file (ncar.py lines 370-392): written if
its aliased name is requested, skipped otherwise. -/
def read_write_diags_var (varList : List String) (memberIdx timeIdx : Nat)
    (st : RunState) (dv : String × Nat) : RunState :=
  if varList.contains (diagsAlias dv.1) then
    { st with
      arch := { createVar st.arch (diagsAlias dv.1) with
        writes := (createVar st.arch (diagsAlias dv.1)).writes ++
          [(diagsAlias dv.1, memberIdx, timeIdx, dv.2)] } }
  else st

/-- `read_write_diags` (ncar.py lines 357-393): warn and return if the diagnostics
file is missing, otherwise write every stored variable whose (aliased) name is
requested, with `REFD_MAX` renamed to `REFC`. -/
def read_write_diags (varList : List String) (memberIdx timeIdx : Nat)
    (p : RawPath) (s : RunState) : RunState :=
  match checkExistsPath s.fs p with
  | none => { s with log := s.log ++ [fileNotFoundWarning] }
  | some (lf, c) =>
    let s1 : RunState := { s with fs := _unzip s.fs lf }
    match c with
    | FileContent.diagsContent dvars =>
      dvars.foldl (read_write_diags_var varList memberIdx timeIdx) s1
    | _ => { s1 with log := s1.log ++ [decodeFailedWarning] }

/-- Option flags of `write` (ncar.py lines 311-312). -/
structure WriteOpts where
  use_ncar_netcdf : Bool
  skip_grib : Bool
  write_into_existing : Bool
  omit_existing : Bool
  delete_raw_files : Bool
  verbose : Bool
deriving DecidableEq

/-- The default option values of `write`. -/
def defaultWriteOpts : WriteOpts := ⟨false, false, true, false, false, false⟩

/-- The grib raw path the `write` loop resolves for a unit: the GRIB2 name from the
cutover date on, the GRIB1 name before it (ncar.py lines 563-571). -/
def unitGribPath (d member hour : Nat) : RawPath :=
  RawPath.grib d member hour (decide (data_grib1to2_date ≤ d))

/-- The geometry step of a unit (ncar.py lines 572-578): while `init_coord` is still
pending, try to write the grid geometry from the unit's grib file; on success clear
`init_coord`, on failure log the caught `IOError` and move on. -/
def unitGeometry (gp : RawPath) (s : RunState) : RunState :=
  if s.initCoord then
    match read_write_grib_lat_lon gp s with
    | (s1, true) => { s1 with initCoord := false }
    | (s1, false) => { s1 with log := s1.log ++ [coordsNotFoundWarning] }
  else s

/-- The grib decoding step of a unit (ncar.py lines 579-580), with the parameter
table chosen by the unit's format generation. -/
def unitGrib (cfg : NCARConfig) (g1tab g2tab : List (String × Nat))
    (varList : List String) (opts : WriteOpts) (d member hour : Nat)
    (s : RunState) : RunState :=
  if opts.skip_grib then s
  else read_write_grib (if decide (data_grib1to2_date ≤ d) then g2tab else g1tab)
    varList opts.verbose (cfg.member_coord.indexOf member)
    (cfg.forecast_hour_coord.indexOf hour) (unitGribPath d member hour) s

/-- The diagnostics decoding step of a unit (ncar.py lines 582-587). -/
def unitDiags (cfg : NCARConfig) (varList : List String) (opts : WriteOpts)
    (d member hour : Nat) (s : RunState) : RunState :=
  if opts.use_ncar_netcdf then
    read_write_diags varList (cfg.member_coord.indexOf member)
      (cfg.forecast_hour_coord.indexOf hour) (RawPath.diags d member hour) s
  else s

/-- The raw-file deletion step of a unit (ncar.py lines 589-594); `os.path.isfile`
followed by `os.remove` is removal of the exact (uncompressed) path. -/
def unitDelete (opts : WriteOpts) (gp dp : RawPath) (s : RunState) : RunState :=
  if opts.delete_raw_files then
    { s with fs :=
        if opts.use_ncar_netcdf then
          fsRemove (fsRemove s.fs (LocalFile.plain gp)) (LocalFile.plain dp)
        else fsRemove s.fs (LocalFile.plain gp) }
  else s

/-- The body of the `write` loop for one valid (member, forecast hour) unit, in the
source's order: geometry, grib decode, diagnostics decode, raw-file deletion. -/
def processUnit (cfg : NCARConfig) (g1tab g2tab : List (String × Nat))
    (varList : List String) (opts : WriteOpts) (d member hour : Nat)
    (s : RunState) : RunState :=
  unitDelete opts (unitGribPath d member hour) (RawPath.diags d member hour)
    (unitDiags cfg varList opts d member hour
      (unitGrib cfg g1tab g2tab varList opts d member hour
        (unitGeometry (unitGribPath d member hour) s)))

/-- The forecast-hour loop of `write` for one member, skipping hours outside the
configured vocabulary with a warning. -/
def processHours (cfg : NCARConfig) (g1tab g2tab : List (String × Nat))
    (varList : List String) (opts : WriteOpts) (d member : Nat)
    (hours : List Nat) (s : RunState) : RunState :=
  hours.foldl (fun st h =>
    if cfg.forecast_hour_coord.contains h then
      processUnit cfg g1tab g2tab varList opts d member h st
    else { st with log := st.log ++ [badHourWarning] }) s

/-- The member loop of `write`, skipping members outside the configured vocabulary
with a warning. -/
def processMembers (cfg : NCARConfig) (g1tab g2tab : List (String × Nat))
    (varList : List String) (opts : WriteOpts) (d : Nat)
    (members hours : List Nat) (s : RunState) : RunState :=
  members.foldl (fun st m =>
    if cfg.member_coord.contains m then
      processHours cfg g1tab g2tab varList opts d m hours st
    else { st with log := st.log ++ [badMemberWarning] }) s

/-- The canonical archive path of a run. -/
def archivePath (d : Nat) : LocalFile := LocalFile.processed d

/-- `write` for a single init date (ncar.py lines 493-600): open (create, append to,
or overwrite) the archive, initialize the coordinate dimensions when the file is
fresh, run the member/hour loops, close the file, and delete it again when
`init_coord` never got cleared. -/
def writeRun (cfg : NCARConfig) (g1tab g2tab : List (String × Nat))
    (varList : List String) (members hours : List Nat) (opts : WriteOpts)
    (d : Nat) (fs : FileSys) : FileSys × List String :=
  let opened : Option (Archive × Bool) :=
    match fsLookup fs (archivePath d) with
    | some c =>
      if opts.omit_existing then none
      else if opts.write_into_existing then
        some (match c with | FileContent.archiveContent a => a | _ => Archive.empty,
          false)
      else some (Archive.empty, true)
    | none => some (Archive.empty, true)
  match opened with
  | none => (fs, [])
  | some (a0, ic) =>
    let a1 := if ic then { a0 with coordsInit := true } else a0
    let s1 := processMembers cfg g1tab g2tab varList opts d members hours
      ⟨fs, a1, ic, []⟩
    if s1.initCoord then
      (fsRemove s1.fs (archivePath d), s1.log)
    else
      (fsSet s1.fs (archivePath d) (FileContent.archiveContent s1.arch), s1.log)

/-- `write` (ncar.py lines 311-600): with an empty variables list it only prints a
notice and returns; otherwise it processes every requested init date in order. -/
def write (cfg : NCARConfig) (g1tab g2tab : List (String × Nat))
    (varList : List String) (init_dates members hours : List Nat)
    (opts : WriteOpts) (fs : FileSys) : FileSys × List String :=
  if varList.isEmpty then (fs, [noVariablesNotice])
  else
    init_dates.foldl (fun acc dd =>
      let r := writeRun cfg g1tab g2tab varList members hours opts dd acc.1
      (r.1, acc.2 ++ r.2)) (fs, [])

/-- Whether a raw file is present on disk under its exact or compressed name (the
observable the ingestion code bases its decisions on). -/
def gribPresent (fs : FileSys) (p : RawPath) : Bool :=
  (checkExistsPath fs p).isSome

/-! ### Spatial index (`closest_lat_lon`, `get_xy_bounds_from_latlon`,
ncar.py lines 179-207) -/

/-- The spatial grid of an open dataset: flattened row-major latitude and longitude
arrays of shape `(ny, nx)`, as numpy exposes them. Real-valued coordinates are
modelled as rationals. -/
structure Grid where
  lat : List Rat
  lon : List Rat
  nx : Nat
deriving DecidableEq

/-- The longitude normalization at the top of `closest_lat_lon` (ncar.py lines
188-189): a negative longitude has 360 added. -/
def normLon (lon : Rat) : Rat := if lon < 0 then lon + 360 else lon

/-- The squared angular distance array `(lat - lat0)**2 + (lon - lon0)**2`,
flattened row-major; `lo` is the already normalized longitude. -/
def distList (g : Grid) (la lo : Rat) : List Rat :=
  List.zipWith (fun a b => (a - la) * (a - la) + (b - lo) * (b - lo)) g.lat g.lon

/-- `closest_lat_lon` (ncar.py lines 179-193): normalize the longitude, build the
squared-distance array, raise (`none`) when its minimum exceeds 1 square degree, and
otherwise return `np.unravel_index(np.argmin(distance), shape)` — the row-major
coordinates of the first index attaining the minimum. -/
def closest_lat_lon (g : Grid) (lat lon : Rat) : Option (Nat × Nat) :=
  match (distList g lat (normLon lon)).min? with
  | none => none
  | some m =>
    if 1 < m then none
    else
      some ((distList g lat (normLon lon)).findIdx (fun z => decide (z = m)) / g.nx,
        (distList g lat (normLon lon)).findIdx (fun z => decide (z = m)) % g.nx)

/-- `get_xy_bounds_from_latlon` (ncar.py lines 195-207): resolve the (min, min) and
(max, max) corners via `closest_lat_lon` and swap the y pair when `inverse_lat` is
set. -/
def get_xy_bounds_from_latlon (g : Grid) (inverse_lat : Bool)
    (latlim lonlim : Rat × Rat) : Option ((Nat × Nat) × (Nat × Nat)) :=
  match closest_lat_lon g (min latlim.1 latlim.2) (min lonlim.1 lonlim.2),
      closest_lat_lon g (max latlim.1 latlim.2) (max lonlim.1 lonlim.2) with
  | some (y1, x1), some (y2, x2) =>
    some (if inverse_lat then (y2, y1) else (y1, y2), (x1, x2))
  | _, _ => none

/-- `np.argmin`: the first index attaining the minimum of a list (0 on an empty
list, on which numpy would raise). -/
def argminFst (xs : List Rat) : Nat :=
  match xs.min? with
  | none => 0
  | some m => xs.findIdx (fun z => decide (z = m))

/-! ### The dataset facade state and `close` (ncar.py lines 100-104, 634-646) -/

/-- State of the dataset facade relevant to `close`: the open xarray Dataset
(abstracted to an identifier) and the lazily cached spatial grid arrays
(`_lat_array`, `_lon_array`). -/
structure DatasetState where
  Dataset : Option Nat
  lat_array : Option (List Rat)
  lon_array : Option (List Rat)
deriving DecidableEq

/-- `close`: release the dataset and clear the cached latitude/longitude arrays, or
raise `ValueError` when nothing is open. -/
def close (s : DatasetState) : Except String DatasetState :=
  match s.Dataset with
  | some _ => Except.ok ⟨none, none, none⟩
  | none => Except.error "no Dataset to close"

/-! ### Helper lemmas about the fetch loop -/

theorem fetchOne_fs_superset (att : RawPath → Nat → Bool) (t : RawPath × Bool)
    (fs : List LocalFile) (f : LocalFile) (h : f ∈ fs) : f ∈ (fetchOne att t fs).fs := by
  unfold fetchOne
  split
  · exact h
  · split
    · exact List.mem_cons_of_mem _ h
    · split
      · exact List.mem_cons_of_mem _ h
      · exact h

theorem check_exists_mono (fs fs' : List LocalFile) (p : RawPath)
    (hsub : ∀ f, f ∈ fs → f ∈ fs') (h : _check_exists fs p = true) :
    _check_exists fs' p = true := by
  unfold _check_exists at h ⊢
  simp only [Bool.or_eq_true] at h ⊢
  simp at h ⊢
  rcases h with h | h
  · exact Or.inl (hsub _ h)
  · exact Or.inr (hsub _ h)

theorem fetchOne_downloads_sub (att : RawPath → Nat → Bool) (t : RawPath × Bool)
    (fs : List LocalFile) (p : RawPath) (h : p ∈ (fetchOne att t fs).downloads) :
    p = t.1 := by
  unfold fetchOne at h
  split at h
  · simp at h
  · split at h
    · simpa using h
    · split at h
      · simpa using h
      · simpa using h

theorem fetch_skips_existing (att : RawPath → Nat → Bool) (p : RawPath) :
    ∀ (files : List (RawPath × Bool)) (fs : List LocalFile),
    _check_exists fs p = true → p ∉ (fetchFiles att files fs).downloads := by
  intro files
  induction files with
  | nil => intro fs _ h; simp [fetchFiles] at h
  | cons t rest ih =>
    intro fs hex h
    simp only [fetchFiles, List.mem_append] at h
    rcases h with h | h
    · have hp := fetchOne_downloads_sub att t fs p h
      subst hp
      unfold fetchOne at h
      rw [hex] at h
      simp at h
    · have hfs : _check_exists (fetchOne att t fs).fs p = true :=
        check_exists_mono fs _ p (fun f hf => fetchOne_fs_superset att t fs f hf) hex
      exact ih (fetchOne att t fs).fs hfs h

/-! ### Claim theorems about retrieval -/

/-- C5: an init date outside the hard-coded valid window `[data_start_date,
data_end_date]` contributes zero planned file entries, emits a warning rather than
raising, and planning continues with the remaining requested dates unchanged. -/
theorem planDates_out_of_range_skipped (cfg : NCARConfig) (d : Nat)
    (dates members hours : List Nat) (g : Bool)
    (hout : d < data_start_date ∨ d > data_end_date) :
    planDates cfg (d :: dates) members hours g =
      ⟨(planDates cfg dates members hours g).raw_files,
        outOfRangeWarning d :: (planDates cfg dates members hours g).log⟩ := by
  have hc : (d < data_start_date || d > data_end_date) = true := by
    rcases hout with h | h <;> simp [h]
  simp [planDates, planDate, hc]

/-- Witness for C5 at a concrete out-of-range date. -/
theorem planDates_out_of_range_skipped_witness :
    planDates defaultNcar [2015010100] [1] [0] false =
      ⟨[], [outOfRangeWarning 2015010100]⟩ := by
  have h := planDates_out_of_range_skipped defaultNcar 2015010100 [] [1] [0] false
    (Or.inl (by decide))
  simpa [planDates] using h

/-- C2, counterexample: for an init date on or after the format-cutover date with the
diagnostics option requested, the planner does not plan only the GRIB2 file — the
diagnostics netCDF file is planned as well. -/
theorem planDate_after_cutover_not_only_grib2 :
    data_grib1to2_date ≤ 2016060100 ∧
    (planDate defaultNcar [1] [0] true 2016060100).raw_files =
      [(RawPath.diags 2016060100 1 0, true), (RawPath.grib 2016060100 1 0 true, false)] := by
  constructor
  · decide
  · decide

/-- C2, amended: for an in-window date and a valid (member, hour) unit, the GRIB1
file (compressed) is planned exactly when the date precedes the cutover, the GRIB2
file exactly when it does not, and the diagnostics netCDF file exactly when it was
requested — on either side of the cutover. -/
theorem planDate_format_selection (cfg : NCARConfig) (d m h : Nat) (g : Bool)
    (hin : data_start_date ≤ d ∧ d ≤ data_end_date)
    (hm : cfg.member_coord.contains m = true)
    (hh : cfg.forecast_hour_coord.contains h = true) :
    ((RawPath.grib d m h false, true) ∈ (planDate cfg [m] [h] g d).raw_files
        ↔ d < data_grib1to2_date) ∧
    ((RawPath.grib d m h true, false) ∈ (planDate cfg [m] [h] g d).raw_files
        ↔ ¬ d < data_grib1to2_date) ∧
    ((RawPath.diags d m h, true) ∈ (planDate cfg [m] [h] g d).raw_files ↔ g = true) := by
  have hc : (d < data_start_date || d > data_end_date) = false := by
    simp only [Bool.or_eq_false_iff, decide_eq_false_iff_not, not_lt, gt_iff_lt]
    exact ⟨hin.1, hin.2⟩
  simp only [planDate, hc, Bool.false_eq_true, if_false, planMembers, hm, if_true,
    planHours, hh, planUnit]
  by_cases hcut : d < data_grib1to2_date <;> by_cases hg : g <;>
    simp [hcut, hg]

/-- Witness for C2's amended theorem at a concrete pre-cutover date. -/
theorem planDate_format_selection_witness :
    ((RawPath.grib 2015050100 1 0 false, true) ∈
        (planDate defaultNcar [1] [0] true 2015050100).raw_files
      ↔ 2015050100 < data_grib1to2_date) ∧
    ((RawPath.grib 2015050100 1 0 true, false) ∈
        (planDate defaultNcar [1] [0] true 2015050100).raw_files
      ↔ ¬ 2015050100 < data_grib1to2_date) ∧
    ((RawPath.diags 2015050100 1 0, true) ∈
        (planDate defaultNcar [1] [0] true 2015050100).raw_files ↔ true = true) :=
  planDate_format_selection defaultNcar 2015050100 1 0 true (by decide) (by decide)
    (by decide)

/-- C6: retrieval is idempotent. A planned file whose local path already exists
(exact path or `.gz` variant) is not downloaded, and in a second run of `retrieve`
with identical parameters no file that is present after the first run is downloaded
again. -/
theorem retrieve_idempotent (att1 att2 : RawPath → Nat → Bool)
    (files : List (RawPath × Bool)) (fs : List LocalFile) (p : RawPath) (s : Bool)
    (_hmem : (p, s) ∈ files) :
    (_check_exists fs p = true → p ∉ (fetchFiles att1 files fs).downloads) ∧
    (_check_exists (fetchFiles att1 files fs).fs p = true →
      p ∉ (fetchFiles att2 files (fetchFiles att1 files fs).fs).downloads) := by
  refine ⟨fun hex => ?_, fun hex => ?_⟩
  · exact fetch_skips_existing att1 p files fs hex
  · exact fetch_skips_existing att2 p files _ hex

/-- Witness for C6: a file already present as its compressed variant is not
downloaded in either run. -/
theorem retrieve_idempotent_witness :
    (RawPath.grib 2015050100 1 0 false) ∉
      (fetchFiles (fun _ _ => false) [(RawPath.grib 2015050100 1 0 false, true)]
        [LocalFile.gz (RawPath.grib 2015050100 1 0 false)]).downloads := by
  have h := retrieve_idempotent (fun _ _ => false) (fun _ _ => false)
    [(RawPath.grib 2015050100 1 0 false, true)]
    [LocalFile.gz (RawPath.grib 2015050100 1 0 false)]
    (RawPath.grib 2015050100 1 0 false) true (by decide)
  exact h.1 (by decide)

/-- C7: a transport failure on a file triggers exactly one retry — the outcome is
then decided by the retry attempt and by nothing further — and when the retry also
fails the failure is logged, no file is created, and the batch continues with the
remaining files; a single file's failure never aborts the batch. -/
theorem fetch_retry_once (att : RawPath → Nat → Bool) (t : RawPath × Bool)
    (rest : List (RawPath × Bool)) (fs : List LocalFile)
    (hnew : _check_exists fs t.1 = false)
    (hfail : att t.1 0 = false) :
    (att t.1 1 = true →
      fetchOne att t fs = ⟨addSuffix t.1 t.2 :: fs, [t.1], [retryWarning]⟩) ∧
    (att t.1 1 = false →
      fetchOne att t fs = ⟨fs, [t.1], [retryWarning, failWarning]⟩) ∧
    (∀ att2 : RawPath → Nat → Bool, att2 t.1 0 = att t.1 0 → att2 t.1 1 = att t.1 1 →
      fetchOne att2 t fs = fetchOne att t fs) ∧
    fetchFiles att (t :: rest) fs =
      ⟨(fetchFiles att rest (fetchOne att t fs).fs).fs,
        (fetchOne att t fs).downloads ++ (fetchFiles att rest (fetchOne att t fs).fs).downloads,
        (fetchOne att t fs).log ++ (fetchFiles att rest (fetchOne att t fs).fs).log⟩ := by
  refine ⟨fun h1 => ?_, fun h1 => ?_, fun att2 h0 h1 => ?_, rfl⟩
  · simp [fetchOne, hnew, hfail, h1]
  · simp [fetchOne, hnew, hfail, h1]
  · simp only [fetchOne, hnew, Bool.false_eq_true, if_false, h0, h1, hfail]

/-- Witness for C7 with a concretely failing transport. -/
theorem fetch_retry_once_witness :
    fetchOne (fun _ _ => false) (RawPath.grib 2015050100 1 0 false, true) [] =
      ⟨[], [RawPath.grib 2015050100 1 0 false], [retryWarning, failWarning]⟩ := by
  have h := fetch_retry_once (fun _ _ => false) (RawPath.grib 2015050100 1 0 false, true)
    [] [] (by decide) rfl
  exact h.2.1 rfl

/-! ### Helper lemmas about the ingestion state -/

theorem fsLookup_fsRemove (fs : FileSys) (f f' : LocalFile) :
    fsLookup (fsRemove fs f) f' = if f' = f then none else fsLookup fs f' := by
  induction fs with
  | nil =>
    simp [fsRemove, fsLookup]
  | cons e rest ih =>
    by_cases hef : e.1 = f
    · have h1 : fsRemove (e :: rest) f = fsRemove rest f := by
        simp [fsRemove, List.filter_cons, hef]
      rw [h1, ih]
      by_cases hf' : f' = f
      · simp [hf']
      · have hne : ¬ e.1 = f' := by
          rw [hef]
          exact fun hx => hf' hx.symm
        simp [hf', fsLookup, hne]
    · have h1 : fsRemove (e :: rest) f = e :: fsRemove rest f := by
        simp [fsRemove, List.filter_cons, hef]
      rw [h1]
      by_cases hef' : e.1 = f'
      · have hff : ¬ f' = f := fun hx => hef (hef'.trans hx)
        simp [fsLookup, hef', hff]
      · simp [fsLookup, hef', ih]

theorem fsLookup_fsSet (fs : FileSys) (f : LocalFile) (c : FileContent)
    (f' : LocalFile) :
    fsLookup (fsSet fs f c) f' = if f' = f then some c else fsLookup fs f' := by
  unfold fsSet
  by_cases h : f = f'
  · simp [fsLookup, h]
  · have h' : ¬ f' = f := fun hx => h hx.symm
    simp [fsLookup, h, h', fsLookup_fsRemove]

theorem gribPresent_eq (fs : FileSys) (p : RawPath) :
    gribPresent fs p =
      ((fsLookup fs (LocalFile.plain p)).isSome || (fsLookup fs (LocalFile.gz p)).isSome) := by
  unfold gribPresent checkExistsPath
  cases fsLookup fs (LocalFile.plain p) <;> cases fsLookup fs (LocalFile.gz p) <;> rfl

theorem gribPresent_unzip (fs : FileSys) (lf : LocalFile) (p : RawPath) :
    gribPresent (_unzip fs lf) p = gribPresent fs p := by
  cases lf with
  | plain q => rfl
  | processed dd => rfl
  | gz q =>
    have hred : _unzip fs (LocalFile.gz q) =
        (match fsLookup fs (LocalFile.gz q) with
          | some c => fsSet (fsRemove fs (LocalFile.gz q)) (LocalFile.plain q) c
          | none => fs) := rfl
    rw [hred]
    cases hq : fsLookup fs (LocalFile.gz q) with
    | none => rfl
    | some c =>
      rw [gribPresent_eq, gribPresent_eq]
      by_cases hpq : p = q
      · subst hpq
        simp [fsLookup_fsSet, fsLookup_fsRemove, hq]
      · have h1 : LocalFile.plain p ≠ LocalFile.plain q := by simp [hpq]
        have h2 : LocalFile.gz p ≠ LocalFile.plain q := by simp
        have h3 : LocalFile.gz p ≠ LocalFile.gz q := by simp [hpq]
        simp [fsLookup_fsSet, fsLookup_fsRemove, h1, h2, h3]

theorem gribPresent_fsRemove_false (fs : FileSys) (f : LocalFile) (p : RawPath)
    (h : gribPresent fs p = false) : gribPresent (fsRemove fs f) p = false := by
  rw [gribPresent_eq] at h ⊢
  simp only [Bool.or_eq_false_iff] at h ⊢
  rw [fsLookup_fsRemove, fsLookup_fsRemove]
  constructor
  · split
    · rfl
    · exact h.1
  · split
    · rfl
    · exact h.2

theorem gribPresent_fsRemove_plain_ne (fs : FileSys) (q : RawPath) (p : RawPath)
    (hne : p ≠ q) :
    gribPresent (fsRemove fs (LocalFile.plain q)) p = gribPresent fs p := by
  rw [gribPresent_eq, gribPresent_eq]
  have h1 : LocalFile.plain p ≠ LocalFile.plain q := by simp [hne]
  have h2 : LocalFile.gz p ≠ LocalFile.plain q := by simp
  rw [fsLookup_fsRemove, fsLookup_fsRemove, if_neg h1, if_neg h2]

theorem foldl_fs_initCoord {α : Type} (f : RunState → α → RunState)
    (hf : ∀ st a, (f st a).fs = st.fs ∧ (f st a).initCoord = st.initCoord) :
    ∀ (l : List α) (st : RunState),
      (l.foldl f st).fs = st.fs ∧ (l.foldl f st).initCoord = st.initCoord := by
  intro l
  induction l with
  | nil => exact fun st => ⟨rfl, rfl⟩
  | cons a rest ih =>
    intro st
    rw [List.foldl_cons]
    obtain ⟨h1, h2⟩ := ih (f st a)
    obtain ⟨g1, g2⟩ := hf st a
    exact ⟨h1.trans g1, h2.trans g2⟩

theorem read_write_grib_row_fs_initCoord (varList : List String) (verbose : Bool)
    (mi ti : Nat) (recs : List (Nat × Nat)) (s : RunState) (row : String × Nat) :
    (read_write_grib_row varList verbose mi ti recs s row).fs = s.fs ∧
    (read_write_grib_row varList verbose mi ti recs s row).initCoord = s.initCoord := by
  unfold read_write_grib_row
  split
  · split <;> exact ⟨rfl, rfl⟩
  · exact ⟨rfl, rfl⟩

theorem read_write_diags_var_fs_initCoord (varList : List String) (mi ti : Nat)
    (st : RunState) (dv : String × Nat) :
    (read_write_diags_var varList mi ti st dv).fs = st.fs ∧
    (read_write_diags_var varList mi ti st dv).initCoord = st.initCoord := by
  unfold read_write_diags_var
  split <;> exact ⟨rfl, rfl⟩

theorem read_write_grib_effects (table : List (String × Nat)) (varList : List String)
    (verbose : Bool) (mi ti : Nat) (p : RawPath) (s : RunState) :
    (∀ q, gribPresent (read_write_grib table varList verbose mi ti p s).fs q =
      gribPresent s.fs q) ∧
    (read_write_grib table varList verbose mi ti p s).initCoord = s.initCoord := by
  cases hc : checkExistsPath s.fs p with
  | none =>
    simp only [read_write_grib, hc]
    exact ⟨fun q => trivial, trivial⟩
  | some lc =>
    obtain ⟨lf, c⟩ := lc
    cases c with
    | gribContent recs =>
      simp only [read_write_grib, hc]
      obtain ⟨h1, h2⟩ := foldl_fs_initCoord
        (read_write_grib_row varList verbose mi ti recs)
        (fun st a => read_write_grib_row_fs_initCoord varList verbose mi ti recs st a)
        table { s with fs := _unzip s.fs lf }
      refine ⟨fun q => ?_, h2⟩
      rw [h1]
      exact gribPresent_unzip s.fs lf q
    | diagsContent dv =>
      simp only [read_write_grib, hc]
      exact ⟨fun q => gribPresent_unzip s.fs lf q, trivial⟩
    | archiveContent a =>
      simp only [read_write_grib, hc]
      exact ⟨fun q => gribPresent_unzip s.fs lf q, trivial⟩

theorem read_write_diags_effects (varList : List String) (mi ti : Nat) (p : RawPath)
    (s : RunState) :
    (∀ q, gribPresent (read_write_diags varList mi ti p s).fs q = gribPresent s.fs q) ∧
    (read_write_diags varList mi ti p s).initCoord = s.initCoord := by
  cases hc : checkExistsPath s.fs p with
  | none =>
    simp only [read_write_diags, hc]
    exact ⟨fun q => trivial, trivial⟩
  | some lc =>
    obtain ⟨lf, c⟩ := lc
    cases c with
    | diagsContent dv =>
      simp only [read_write_diags, hc]
      obtain ⟨h1, h2⟩ := foldl_fs_initCoord (read_write_diags_var varList mi ti)
        (fun st a => read_write_diags_var_fs_initCoord varList mi ti st a)
        dv { s with fs := _unzip s.fs lf }
      refine ⟨fun q => ?_, h2⟩
      rw [h1]
      exact gribPresent_unzip s.fs lf q
    | gribContent recs =>
      simp only [read_write_diags, hc]
      exact ⟨fun q => gribPresent_unzip s.fs lf q, trivial⟩
    | archiveContent a =>
      simp only [read_write_diags, hc]
      exact ⟨fun q => gribPresent_unzip s.fs lf q, trivial⟩

theorem read_write_grib_lat_lon_effects (p : RawPath) (s : RunState) :
    (∀ q, gribPresent (read_write_grib_lat_lon p s).1.fs q = gribPresent s.fs q) ∧
    (read_write_grib_lat_lon p s).1.initCoord = s.initCoord ∧
    (read_write_grib_lat_lon p s).2 = gribPresent s.fs p := by
  unfold read_write_grib_lat_lon gribPresent
  cases hc : checkExistsPath s.fs p with
  | none => exact ⟨fun q => rfl, rfl, rfl⟩
  | some lc =>
    obtain ⟨lf, c⟩ := lc
    exact ⟨fun q => gribPresent_unzip s.fs lf q, rfl, rfl⟩

theorem unitGeometry_effects (gp : RawPath) (s : RunState) :
    (∀ q, gribPresent (unitGeometry gp s).fs q = gribPresent s.fs q) ∧
    (unitGeometry gp s).initCoord = (s.initCoord && !(gribPresent s.fs gp)) := by
  unfold unitGeometry
  by_cases hic : s.initCoord
  · rw [if_pos hic]
    obtain ⟨he1, he2, he3⟩ := read_write_grib_lat_lon_effects gp s
    rcases hr : read_write_grib_lat_lon gp s with ⟨s1, b⟩
    rw [hr] at he1 he2 he3
    cases b with
    | true =>
      refine ⟨fun q => he1 q, ?_⟩
      rw [hic, ← he3]
      rfl
    | false =>
      refine ⟨fun q => he1 q, ?_⟩
      show s1.initCoord = _
      rw [he2, hic, ← he3]
      rfl
  · rw [if_neg hic]
    have hic' : s.initCoord = false := by
      cases hi : s.initCoord
      · rfl
      · exact absurd hi hic
    exact ⟨fun q => rfl, by rw [hic']; rfl⟩

theorem unitGrib_effects (cfg : NCARConfig) (g1tab g2tab : List (String × Nat))
    (varList : List String) (opts : WriteOpts) (d m h : Nat) (s : RunState) :
    (∀ q, gribPresent (unitGrib cfg g1tab g2tab varList opts d m h s).fs q =
      gribPresent s.fs q) ∧
    (unitGrib cfg g1tab g2tab varList opts d m h s).initCoord = s.initCoord := by
  unfold unitGrib
  split
  · exact ⟨fun q => rfl, rfl⟩
  · exact read_write_grib_effects _ _ _ _ _ _ _

theorem unitDiags_effects (cfg : NCARConfig) (varList : List String)
    (opts : WriteOpts) (d m h : Nat) (s : RunState) :
    (∀ q, gribPresent (unitDiags cfg varList opts d m h s).fs q = gribPresent s.fs q) ∧
    (unitDiags cfg varList opts d m h s).initCoord = s.initCoord := by
  unfold unitDiags
  split
  · exact read_write_diags_effects _ _ _ _ _
  · exact ⟨fun q => rfl, rfl⟩

theorem unitDelete_initCoord (opts : WriteOpts) (gp dp : RawPath) (s : RunState) :
    (unitDelete opts gp dp s).initCoord = s.initCoord := by
  unfold unitDelete
  split <;> rfl

theorem unitDelete_gribPresent_ne (opts : WriteOpts) (gp dp : RawPath) (s : RunState)
    (q : RawPath) (h1 : q ≠ gp) (h2 : q ≠ dp) :
    gribPresent (unitDelete opts gp dp s).fs q = gribPresent s.fs q := by
  unfold unitDelete
  split
  · show gribPresent (if opts.use_ncar_netcdf then _ else _) q = _
    split
    · rw [gribPresent_fsRemove_plain_ne _ _ _ h2, gribPresent_fsRemove_plain_ne _ _ _ h1]
    · rw [gribPresent_fsRemove_plain_ne _ _ _ h1]
  · rfl

theorem unitDelete_gribPresent_false (opts : WriteOpts) (gp dp : RawPath)
    (s : RunState) (q : RawPath) (h : gribPresent s.fs q = false) :
    gribPresent (unitDelete opts gp dp s).fs q = false := by
  unfold unitDelete
  split
  · show gribPresent (if opts.use_ncar_netcdf then _ else _) q = false
    split
    · exact gribPresent_fsRemove_false _ _ _ (gribPresent_fsRemove_false _ _ _ h)
    · exact gribPresent_fsRemove_false _ _ _ h
  · exact h

theorem processUnit_initCoord (cfg : NCARConfig) (g1tab g2tab : List (String × Nat))
    (varList : List String) (opts : WriteOpts) (d m h : Nat) (s : RunState) :
    (processUnit cfg g1tab g2tab varList opts d m h s).initCoord =
      (s.initCoord && !(gribPresent s.fs (unitGribPath d m h))) := by
  unfold processUnit
  rw [unitDelete_initCoord, (unitDiags_effects _ _ _ _ _ _ _).2,
    (unitGrib_effects _ _ _ _ _ _ _ _ _).2, (unitGeometry_effects _ _).2]

theorem processUnit_gribPresent_ne (cfg : NCARConfig)
    (g1tab g2tab : List (String × Nat)) (varList : List String) (opts : WriteOpts)
    (d m h : Nat) (s : RunState) (q : RawPath) (h1 : q ≠ unitGribPath d m h)
    (h2 : q ≠ RawPath.diags d m h) :
    gribPresent (processUnit cfg g1tab g2tab varList opts d m h s).fs q =
      gribPresent s.fs q := by
  unfold processUnit
  rw [unitDelete_gribPresent_ne _ _ _ _ _ h1 h2, (unitDiags_effects _ _ _ _ _ _ _).1 q,
    (unitGrib_effects _ _ _ _ _ _ _ _ _).1 q, (unitGeometry_effects _ _).1 q]

theorem processUnit_gribPresent_false (cfg : NCARConfig)
    (g1tab g2tab : List (String × Nat)) (varList : List String) (opts : WriteOpts)
    (d m h : Nat) (s : RunState) (q : RawPath) (hq : gribPresent s.fs q = false) :
    gribPresent (processUnit cfg g1tab g2tab varList opts d m h s).fs q = false := by
  unfold processUnit
  apply unitDelete_gribPresent_false
  rw [(unitDiags_effects _ _ _ _ _ _ _).1 q, (unitGrib_effects _ _ _ _ _ _ _ _ _).1 q,
    (unitGeometry_effects _ _).1 q]
  exact hq

theorem processHours_cons (cfg : NCARConfig) (g1tab g2tab : List (String × Nat))
    (varList : List String) (opts : WriteOpts) (d m h : Nat) (rest : List Nat)
    (s : RunState) :
    processHours cfg g1tab g2tab varList opts d m (h :: rest) s =
      processHours cfg g1tab g2tab varList opts d m rest
        (if cfg.forecast_hour_coord.contains h then
          processUnit cfg g1tab g2tab varList opts d m h s
        else { s with log := s.log ++ [badHourWarning] }) := rfl

theorem processMembers_cons (cfg : NCARConfig) (g1tab g2tab : List (String × Nat))
    (varList : List String) (opts : WriteOpts) (d m : Nat) (rest hours : List Nat)
    (s : RunState) :
    processMembers cfg g1tab g2tab varList opts d (m :: rest) hours s =
      processMembers cfg g1tab g2tab varList opts d rest hours
        (if cfg.member_coord.contains m then
          processHours cfg g1tab g2tab varList opts d m hours s
        else { s with log := s.log ++ [badMemberWarning] }) := rfl

theorem processHours_initCoord_false (cfg : NCARConfig)
    (g1tab g2tab : List (String × Nat)) (varList : List String) (opts : WriteOpts)
    (d m : Nat) (hours : List Nat) (s : RunState) (h : s.initCoord = false) :
    (processHours cfg g1tab g2tab varList opts d m hours s).initCoord = false := by
  induction hours generalizing s with
  | nil => exact h
  | cons hh rest ih =>
    rw [processHours_cons]
    apply ih
    split
    · rw [processUnit_initCoord, h]
      rfl
    · exact h

theorem processMembers_initCoord_false (cfg : NCARConfig)
    (g1tab g2tab : List (String × Nat)) (varList : List String) (opts : WriteOpts)
    (d : Nat) (members hours : List Nat) (s : RunState) (h : s.initCoord = false) :
    (processMembers cfg g1tab g2tab varList opts d members hours s).initCoord =
      false := by
  induction members generalizing s with
  | nil => exact h
  | cons m rest ih =>
    rw [processMembers_cons]
    apply ih
    split
    · exact processHours_initCoord_false _ _ _ _ _ _ _ _ _ h
    · exact h

theorem processHours_gribPresent (cfg : NCARConfig)
    (g1tab g2tab : List (String × Nat)) (varList : List String) (opts : WriteOpts)
    (d m : Nat) (hours : List Nat) (s : RunState) (q : RawPath)
    (hne : ∀ h, q ≠ unitGribPath d m h ∧ q ≠ RawPath.diags d m h) :
    gribPresent (processHours cfg g1tab g2tab varList opts d m hours s).fs q =
      gribPresent s.fs q := by
  induction hours generalizing s with
  | nil => rfl
  | cons hh rest ih =>
    rw [processHours_cons, ih]
    split
    · exact processUnit_gribPresent_ne _ _ _ _ _ _ _ _ _ _ (hne hh).1 (hne hh).2
    · rfl

theorem processHours_finds_geometry (cfg : NCARConfig)
    (g1tab g2tab : List (String × Nat)) (varList : List String) (opts : WriteOpts)
    (d m : Nat) (hours : List Nat) (s : RunState) (h0 : Nat) (hmem : h0 ∈ hours)
    (hval : cfg.forecast_hour_coord.contains h0 = true)
    (hex : gribPresent s.fs (unitGribPath d m h0) = true) :
    (processHours cfg g1tab g2tab varList opts d m hours s).initCoord = false := by
  induction hours generalizing s with
  | nil => cases hmem
  | cons hh rest ih =>
    rw [processHours_cons]
    by_cases hd : h0 = hh
    · subst hd
      rw [if_pos hval]
      apply processHours_initCoord_false
      rw [processUnit_initCoord, hex]
      simp
    · have hmem' : h0 ∈ rest := by
        rcases List.mem_cons.mp hmem with he | hm
        · exact absurd he hd
        · exact hm
      split
      · apply ih _ hmem'
        rw [processUnit_gribPresent_ne]
        · exact hex
        · simp [unitGribPath, hd]
        · simp [unitGribPath]
      · exact ih _ hmem' hex

theorem processMembers_finds_geometry (cfg : NCARConfig)
    (g1tab g2tab : List (String × Nat)) (varList : List String) (opts : WriteOpts)
    (d : Nat) (members hours : List Nat) (s : RunState) (m0 h0 : Nat)
    (hm : m0 ∈ members) (hmv : cfg.member_coord.contains m0 = true)
    (hh : h0 ∈ hours) (hhv : cfg.forecast_hour_coord.contains h0 = true)
    (hex : gribPresent s.fs (unitGribPath d m0 h0) = true) :
    (processMembers cfg g1tab g2tab varList opts d members hours s).initCoord =
      false := by
  induction members generalizing s with
  | nil => cases hm
  | cons m rest ih =>
    rw [processMembers_cons]
    by_cases hd : m0 = m
    · subst hd
      rw [if_pos hmv]
      apply processMembers_initCoord_false
      exact processHours_finds_geometry _ _ _ _ _ _ _ _ _ _ hh hhv hex
    · have hm' : m0 ∈ rest := by
        rcases List.mem_cons.mp hm with he | hmm
        · exact absurd he hd
        · exact hmm
      split
      · apply ih _ hm'
        rw [processHours_gribPresent]
        · exact hex
        · intro h
          constructor
          · simp [unitGribPath, hd]
          · simp [unitGribPath]
      · exact ih _ hm' hex

theorem processHours_no_geometry (cfg : NCARConfig)
    (g1tab g2tab : List (String × Nat)) (varList : List String) (opts : WriteOpts)
    (d m : Nat) (hours : List Nat) (s : RunState) (hic : s.initCoord = true)
    (habs : ∀ h ∈ hours, cfg.forecast_hour_coord.contains h = true →
      gribPresent s.fs (unitGribPath d m h) = false) :
    (processHours cfg g1tab g2tab varList opts d m hours s).initCoord = true ∧
    ∀ p, gribPresent s.fs p = false →
      gribPresent (processHours cfg g1tab g2tab varList opts d m hours s).fs p =
        false := by
  induction hours generalizing s with
  | nil => exact ⟨hic, fun p hp => hp⟩
  | cons hh rest ih =>
    rw [processHours_cons]
    by_cases hcur : cfg.forecast_hour_coord.contains hh = true
    · rw [if_pos hcur]
      have habs_hh : gribPresent s.fs (unitGribPath d m hh) = false :=
        habs hh (List.mem_cons_self hh rest) hcur
      have h1ic : (processUnit cfg g1tab g2tab varList opts d m hh s).initCoord =
          true := by
        rw [processUnit_initCoord, hic, habs_hh]
        rfl
      have h1abs : ∀ p, gribPresent s.fs p = false →
          gribPresent (processUnit cfg g1tab g2tab varList opts d m hh s).fs p =
            false :=
        fun p hp => processUnit_gribPresent_false _ _ _ _ _ _ _ _ _ _ hp
      obtain ⟨c1, c2⟩ := ih (processUnit cfg g1tab g2tab varList opts d m hh s) h1ic
        (fun h hmem hv => h1abs _ (habs h (List.mem_cons_of_mem hh hmem) hv))
      exact ⟨c1, fun p hp => c2 p (h1abs p hp)⟩
    · rw [if_neg hcur]
      exact ih { s with log := s.log ++ [badHourWarning] } hic
        (fun h hmem hv => habs h (List.mem_cons_of_mem hh hmem) hv)

theorem processMembers_no_geometry (cfg : NCARConfig)
    (g1tab g2tab : List (String × Nat)) (varList : List String) (opts : WriteOpts)
    (d : Nat) (members hours : List Nat) (s : RunState) (hic : s.initCoord = true)
    (habs : ∀ m ∈ members, cfg.member_coord.contains m = true →
      ∀ h ∈ hours, cfg.forecast_hour_coord.contains h = true →
        gribPresent s.fs (unitGribPath d m h) = false) :
    (processMembers cfg g1tab g2tab varList opts d members hours s).initCoord =
      true := by
  induction members generalizing s with
  | nil => exact hic
  | cons m rest ih =>
    rw [processMembers_cons]
    by_cases hcur : cfg.member_coord.contains m = true
    · rw [if_pos hcur]
      obtain ⟨c1, c2⟩ := processHours_no_geometry cfg g1tab g2tab varList opts d m
        hours s hic (fun h hmem hv => habs m (List.mem_cons_self m rest) hcur h hmem hv)
      exact ih _ c1 (fun m2 hm2 hmv h hmem hv =>
        c2 _ (habs m2 (List.mem_cons_of_mem m hm2) hmv h hmem hv))
    · rw [if_neg hcur]
      exact ih { s with log := s.log ++ [badMemberWarning] } hic
        (fun m2 hm2 hmv h hmem hv => habs m2 (List.mem_cons_of_mem m hm2) hmv h hmem hv)

/-! ### Helper lemmas about the spatial index -/

theorem minQ_eq_some_iff {a : ℚ} (xs : List ℚ) :
    xs.min? = some a ↔ a ∈ xs ∧ ∀ b ∈ xs, a ≤ b :=
  @List.min?_eq_some_iff ℚ a _ _ ⟨fun h1 h2 => le_antisymm h1 h2⟩ le_refl min_choice
    (fun _ _ _ => le_min_iff) xs

theorem min_isSome_of_ne_nil (xs : List ℚ) (h : xs ≠ []) : ∃ m, xs.min? = some m := by
  cases xs with
  | nil => exact absurd rfl h
  | cons a t => exact ⟨t.foldl min a, rfl⟩

theorem getD_map_lt (f : ℚ → ℚ) (l : List ℚ) (n : Nat) (h : n < l.length) :
    (l.map f).getD n 0 = f (l.getD n 0) := by
  rw [List.getD_eq_getElem _ _ (by simpa using h), List.getElem_map,
    List.getD_eq_getElem _ _ h]

theorem getD_mem_of_lt (l : List ℚ) (n : Nat) (h : n < l.length) : l.getD n 0 ∈ l := by
  rw [List.getD_eq_getElem _ _ h]
  exact List.getElem_mem h

theorem argminFst_spec (xs : List ℚ) (m : ℚ) (hm : xs.min? = some m) :
    argminFst xs < xs.length ∧ xs.getD (argminFst xs) 0 = m ∧
    ∀ j < argminFst xs, m < xs.getD j 0 := by
  obtain ⟨hmem, hle⟩ := (minQ_eq_some_iff xs).mp hm
  have hex : ∃ z ∈ xs, (fun z => decide (z = m)) z = true := ⟨m, hmem, by simp⟩
  have hlt : xs.findIdx (fun z => decide (z = m)) < xs.length :=
    List.findIdx_lt_length_of_exists hex
  have hidx : argminFst xs = xs.findIdx (fun z => decide (z = m)) := by
    unfold argminFst
    rw [hm]
  rw [hidx]
  refine ⟨hlt, ?_, ?_⟩
  · rw [List.getD_eq_getElem _ _ hlt]
    have hp := @List.findIdx_getElem ℚ (fun z => decide (z = m)) xs hlt
    simpa using hp
  · intro j hj
    have hjlen : j < xs.length := lt_trans hj hlt
    have hne := List.not_of_lt_findIdx hj
    rw [List.getD_eq_getElem _ _ hjlen]
    have hge : m ≤ xs[j] := hle _ (List.getElem_mem hjlen)
    have hnee : ¬(xs[j] = m) := by simpa using hne
    exact lt_of_le_of_ne hge (fun hx => hnee hx.symm)

theorem argminFst_sq_mono (M : List ℚ) (hM : M.Pairwise (fun u v => u ≤ v)) (a b : ℚ)
    (hab : a ≤ b) :
    argminFst (M.map (fun w => (w - a) * (w - a))) ≤
      argminFst (M.map (fun w => (w - b) * (w - b))) := by
  by_cases hne : M = []
  · subst hne
    simp [argminFst, List.min?]
  · have hA : (M.map (fun w => (w - a) * (w - a))) ≠ [] := by simpa using hne
    have hB : (M.map (fun w => (w - b) * (w - b))) ≠ [] := by simpa using hne
    obtain ⟨ma, hma⟩ := min_isSome_of_ne_nil _ hA
    obtain ⟨mb, hmb⟩ := min_isSome_of_ne_nil _ hB
    obtain ⟨hia, hva, hsa⟩ := argminFst_spec _ ma hma
    obtain ⟨hib, hvb, hsb⟩ := argminFst_spec _ mb hmb
    by_contra hcon
    push_neg at hcon
    have hiM : argminFst (M.map (fun w => (w - a) * (w - a))) < M.length := by
      rw [← List.length_map M (fun w => (w - a) * (w - a))]
      exact hia
    have hjM : argminFst (M.map (fun w => (w - b) * (w - b))) < M.length := by
      rw [← List.length_map M (fun w => (w - b) * (w - b))]
      exact hib
    have huv : M.getD (argminFst (M.map (fun w => (w - b) * (w - b)))) 0 ≤
        M.getD (argminFst (M.map (fun w => (w - a) * (w - a)))) 0 := by
      rw [List.getD_eq_getElem _ _ hjM, List.getD_eq_getElem _ _ hiM]
      exact List.pairwise_iff_getElem.mp hM _ _ hjM hiM hcon
    have h1 : ma < (M.map (fun w => (w - a) * (w - a))).getD
        (argminFst (M.map (fun w => (w - b) * (w - b)))) 0 := hsa _ hcon
    rw [getD_map_lt _ _ _ hjM] at h1
    rw [getD_map_lt _ _ _ hiM] at hva
    rw [getD_map_lt _ _ _ hjM] at hvb
    obtain ⟨_, hleB⟩ := (minQ_eq_some_iff _).mp hmb
    have h2 : mb ≤ (M.map (fun w => (w - b) * (w - b))).getD
        (argminFst (M.map (fun w => (w - a) * (w - a)))) 0 :=
      hleB _ (getD_mem_of_lt _ _ (by simpa using hiM))
    rw [getD_map_lt _ _ _ hiM] at h2
    set u := M.getD (argminFst (M.map (fun w => (w - b) * (w - b)))) 0
    set v := M.getD (argminFst (M.map (fun w => (w - a) * (w - a)))) 0
    rw [← hva] at h1
    rw [← hvb] at h2
    rcases eq_or_lt_of_le huv with heq | hlt2
    · rw [heq] at h1
      exact absurd h1 (lt_irrefl _)
    · nlinarith

theorem argminFst_sq_anti (M : List ℚ) (hM : M.Pairwise (fun u v => v ≤ u)) (a b : ℚ)
    (hab : a ≤ b) :
    argminFst (M.map (fun w => (w - b) * (w - b))) ≤
      argminFst (M.map (fun w => (w - a) * (w - a))) := by
  by_cases hne : M = []
  · subst hne
    simp [argminFst, List.min?]
  · have hA : (M.map (fun w => (w - a) * (w - a))) ≠ [] := by simpa using hne
    have hB : (M.map (fun w => (w - b) * (w - b))) ≠ [] := by simpa using hne
    obtain ⟨ma, hma⟩ := min_isSome_of_ne_nil _ hA
    obtain ⟨mb, hmb⟩ := min_isSome_of_ne_nil _ hB
    obtain ⟨hia, hva, hsa⟩ := argminFst_spec _ ma hma
    obtain ⟨hib, hvb, hsb⟩ := argminFst_spec _ mb hmb
    by_contra hcon
    push_neg at hcon
    have hiM : argminFst (M.map (fun w => (w - a) * (w - a))) < M.length := by
      rw [← List.length_map M (fun w => (w - a) * (w - a))]
      exact hia
    have hjM : argminFst (M.map (fun w => (w - b) * (w - b))) < M.length := by
      rw [← List.length_map M (fun w => (w - b) * (w - b))]
      exact hib
    have huv : M.getD (argminFst (M.map (fun w => (w - b) * (w - b)))) 0 ≤
        M.getD (argminFst (M.map (fun w => (w - a) * (w - a)))) 0 := by
      rw [List.getD_eq_getElem _ _ hjM, List.getD_eq_getElem _ _ hiM]
      exact List.pairwise_iff_getElem.mp hM _ _ hiM hjM hcon
    have h1 : mb < (M.map (fun w => (w - b) * (w - b))).getD
        (argminFst (M.map (fun w => (w - a) * (w - a)))) 0 := hsb _ hcon
    rw [getD_map_lt _ _ _ hiM] at h1
    rw [getD_map_lt _ _ _ hiM] at hva
    rw [getD_map_lt _ _ _ hjM] at hvb
    obtain ⟨_, hleA⟩ := (minQ_eq_some_iff _).mp hma
    have h2 : ma ≤ (M.map (fun w => (w - a) * (w - a))).getD
        (argminFst (M.map (fun w => (w - b) * (w - b)))) 0 :=
      hleA _ (getD_mem_of_lt _ _ (by simpa using hjM))
    rw [getD_map_lt _ _ _ hjM] at h2
    set u := M.getD (argminFst (M.map (fun w => (w - a) * (w - a)))) 0
    set v := M.getD (argminFst (M.map (fun w => (w - b) * (w - b)))) 0
    rw [← hvb] at h1
    rw [← hva] at h2
    rcases eq_or_lt_of_le huv with heq | hlt2
    · rw [heq] at h1
      exact absurd h1 (lt_irrefl _)
    · nlinarith

theorem zipWith_replicate_left (f : ℚ → ℚ → ℚ) (v : ℚ) (M : List ℚ) :
    List.zipWith f (List.replicate M.length v) M = M.map (fun w => f v w) := by
  induction M with
  | nil => rfl
  | cons w t ih =>
    rw [List.length_cons, List.replicate_succ]
    show f v w :: List.zipWith f (List.replicate t.length v) t =
      f v w :: t.map (fun w => f v w)
    rw [ih]

theorem zip_prod (L M : List ℚ) (a t : ℚ) :
    List.zipWith (fun u b => (u - a) * (u - a) + (b - t) * (b - t))
      (L.flatMap fun v => List.replicate M.length v) (L.flatMap fun _ => M) =
      L.flatMap (fun v => M.map (fun w => (v - a) * (v - a) + (w - t) * (w - t))) := by
  induction L with
  | nil => rfl
  | cons v L ih =>
    rw [List.flatMap_cons, List.flatMap_cons, List.flatMap_cons,
      List.zipWith_append _ _ _ _ _ (List.length_replicate M.length v),
      ih, zipWith_replicate_left]

theorem distList_prod (g : Grid) (L M : List ℚ) (a t : ℚ)
    (hlat : g.lat = L.flatMap (fun v => List.replicate M.length v))
    (hlon : g.lon = L.flatMap (fun _ => M)) :
    distList g a t = L.flatMap (fun v => M.map (fun w =>
      (v - a) * (v - a) + (w - t) * (w - t))) := by
  rw [distList, hlat, hlon]
  exact zip_prod L M a t

theorem flatMap_map_length (L M : List ℚ) (F : ℚ → ℚ → ℚ) :
    (L.flatMap (fun v => M.map (F v))).length = L.length * M.length := by
  induction L with
  | nil => simp
  | cons v L ih =>
    rw [List.flatMap_cons, List.length_append, List.length_map, ih, List.length_cons]
    ring

theorem flatMap_map_get (L M : List ℚ) (F : ℚ → ℚ → ℚ) (q s : Nat)
    (hq : q < L.length) (hs : s < M.length) :
    (L.flatMap (fun v => M.map (F v)))[q * M.length + s]? =
      some (F (L.getD q 0) (M.getD s 0)) := by
  induction L generalizing q with
  | nil => cases hq
  | cons v L ih =>
    rw [List.flatMap_cons]
    cases q with
    | zero =>
      rw [Nat.zero_mul, Nat.zero_add,
        List.getElem?_append_left (by simpa using hs), List.getElem?_map,
        List.getElem?_eq_getElem hs]
      rw [List.getD_eq_getElem _ _ hs]
      rfl
    | succ q =>
      have hstep : (q + 1) * M.length + s = M.length + (q * M.length + s) := by ring
      rw [hstep, List.getElem?_append_right (by simp)]
      have hsub : M.length + (q * M.length + s) - (M.map (F v)).length =
          q * M.length + s := by
        rw [List.length_map]
        exact Nat.add_sub_cancel_left _ _
      rw [hsub]
      exact ih q (by simpa using hq)

theorem min_findIdx_prod (L M : List ℚ) (a t : ℚ) (mF mG : ℚ)
    (hmF : (L.map (fun v => (v - a) * (v - a))).min? = some mF)
    (hmG : (M.map (fun w => (w - t) * (w - t))).min? = some mG) :
    (L.flatMap (fun v => M.map (fun w =>
        (v - a) * (v - a) + (w - t) * (w - t)))).min? = some (mF + mG) ∧
    (L.flatMap (fun v => M.map (fun w =>
        (v - a) * (v - a) + (w - t) * (w - t)))).findIdx
          (fun z => decide (z = mF + mG)) =
      argminFst (L.map (fun v => (v - a) * (v - a))) * M.length +
        argminFst (M.map (fun w => (w - t) * (w - t))) := by
  obtain ⟨hra, hrv, hrs⟩ := argminFst_spec _ mF hmF
  obtain ⟨hca, hcv, hcs⟩ := argminFst_spec _ mG hmG
  obtain ⟨hmemF, hleF⟩ := (minQ_eq_some_iff _).mp hmF
  obtain ⟨hmemG, hleG⟩ := (minQ_eq_some_iff _).mp hmG
  have hrL : argminFst (L.map (fun v => (v - a) * (v - a))) < L.length := by
    rw [← List.length_map L (fun v => (v - a) * (v - a))]
    exact hra
  have hcM : argminFst (M.map (fun w => (w - t) * (w - t))) < M.length := by
    rw [← List.length_map M (fun w => (w - t) * (w - t))]
    exact hca
  have hn : 0 < M.length := Nat.lt_of_le_of_lt (Nat.zero_le _) hcM
  rw [getD_map_lt _ _ _ hrL] at hrv
  rw [getD_map_lt _ _ _ hcM] at hcv
  have hub : ∀ z ∈ L.flatMap (fun v => M.map (fun w =>
      (v - a) * (v - a) + (w - t) * (w - t))), mF + mG ≤ z := by
    intro z hz
    obtain ⟨v, hv, hz2⟩ := List.mem_flatMap.mp hz
    obtain ⟨w, hw, rfl⟩ := List.mem_map.mp hz2
    have h1 : mF ≤ (v - a) * (v - a) := hleF _ (List.mem_map.mpr ⟨v, hv, rfl⟩)
    have h2 : mG ≤ (w - t) * (w - t) := hleG _ (List.mem_map.mpr ⟨w, hw, rfl⟩)
    linarith
  have hbound : argminFst (L.map (fun v => (v - a) * (v - a))) * M.length +
      argminFst (M.map (fun w => (w - t) * (w - t))) <
      (L.flatMap (fun v => M.map (fun w =>
        (v - a) * (v - a) + (w - t) * (w - t)))).length := by
    rw [flatMap_map_length]
    calc argminFst (L.map (fun v => (v - a) * (v - a))) * M.length +
        argminFst (M.map (fun w => (w - t) * (w - t))) <
        argminFst (L.map (fun v => (v - a) * (v - a))) * M.length + M.length := by
          exact Nat.add_lt_add_left hcM _
      _ = (argminFst (L.map (fun v => (v - a) * (v - a))) + 1) * M.length := by ring
      _ ≤ L.length * M.length := Nat.mul_le_mul_right _ hrL
  have hval : (L.flatMap (fun v => M.map (fun w =>
      (v - a) * (v - a) + (w - t) * (w - t))))[argminFst
        (L.map (fun v => (v - a) * (v - a))) * M.length +
        argminFst (M.map (fun w => (w - t) * (w - t)))]? =
      some (mF + mG) := by
    rw [flatMap_map_get L M _ _ _ hrL hcM, hrv, hcv]
  have hmem : mF + mG ∈ L.flatMap (fun v => M.map (fun w =>
      (v - a) * (v - a) + (w - t) * (w - t))) := by
    rw [List.mem_iff_getElem]
    refine ⟨_, hbound, ?_⟩
    have h := List.getElem?_eq_getElem hbound
    rw [h] at hval
    exact Option.some.inj hval
  constructor
  · exact (minQ_eq_some_iff _).mpr ⟨hmem, hub⟩
  · rw [List.findIdx_eq hbound]
    constructor
    · have h := List.getElem?_eq_getElem hbound
      rw [h] at hval
      simp [Option.some.inj hval]
    · intro j hj
      have hjlen : j < (L.flatMap (fun v => M.map (fun w =>
          (v - a) * (v - a) + (w - t) * (w - t)))).length :=
        lt_trans hj hbound
      have hjmod : j % M.length < M.length := Nat.mod_lt _ hn
      have hjeq : j = (j / M.length) * M.length + j % M.length := by
        rw [Nat.mul_comm]
        exact (Nat.div_add_mod j M.length).symm
      have hjdiv : j / M.length < L.length := by
        rw [Nat.div_lt_iff_lt_mul hn]
        have hflat := flatMap_map_length L M
          (fun v w => (v - a) * (v - a) + (w - t) * (w - t))
        rw [hflat] at hjlen
        exact hjlen
      have hqr : j / M.length ≤ argminFst (L.map (fun v => (v - a) * (v - a))) := by
        by_contra hgt
        push_neg at hgt
        have h1 : (argminFst (L.map (fun v => (v - a) * (v - a))) + 1) * M.length ≤
            (j / M.length) * M.length := Nat.mul_le_mul_right _ hgt
        have h2 : (j / M.length) * M.length ≤ j :=
          Nat.div_mul_le_self j M.length
        have h3 : argminFst (L.map (fun v => (v - a) * (v - a))) * M.length +
            argminFst (M.map (fun w => (w - t) * (w - t))) <
            (argminFst (L.map (fun v => (v - a) * (v - a))) + 1) * M.length := by
          calc _ < argminFst (L.map (fun v => (v - a) * (v - a))) * M.length +
              M.length := Nat.add_lt_add_left hcM _
            _ = _ := by ring
        omega
      have hjval := flatMap_map_get L M
        (fun v w => (v - a) * (v - a) + (w - t) * (w - t)) (j / M.length)
        (j % M.length) hjdiv hjmod
      rw [← hjeq] at hjval
      have hjval2 : (L.flatMap (fun v => M.map (fun w =>
          (v - a) * (v - a) + (w - t) * (w - t))))[j] =
          (L.getD (j / M.length) 0 - a) * (L.getD (j / M.length) 0 - a) +
            (M.getD (j % M.length) 0 - t) * (M.getD (j % M.length) 0 - t) := by
        have := List.getElem?_eq_getElem hjlen
        rw [this] at hjval
        exact Option.some.inj hjval
      rw [hjval2]
      have hG : mG ≤ (M.getD (j % M.length) 0 - t) * (M.getD (j % M.length) 0 - t) := by
        have hmm : (M.getD (j % M.length) 0 - t) * (M.getD (j % M.length) 0 - t) ∈
            M.map (fun w => (w - t) * (w - t)) :=
          List.mem_map.mpr ⟨M.getD (j % M.length) 0, getD_mem_of_lt _ _ hjmod, rfl⟩
        exact hleG _ hmm
      rcases Nat.lt_or_ge (j / M.length)
        (argminFst (L.map (fun v => (v - a) * (v - a)))) with hlt | hge
      · have hF : mF < (L.getD (j / M.length) 0 - a) * (L.getD (j / M.length) 0 - a) := by
          have := hrs _ hlt
          rw [getD_map_lt _ _ _ hjdiv] at this
          exact this
        simp only [decide_eq_false_iff_not]
        intro hcontra
        linarith [hcontra]
      · have heq : j / M.length = argminFst (L.map (fun v => (v - a) * (v - a))) :=
          Nat.le_antisymm hqr hge
        have hslt : j % M.length < argminFst (M.map (fun w => (w - t) * (w - t))) := by
          rw [hjeq, heq] at hj
          exact (Nat.add_lt_add_iff_left).mp hj
        have hF : mF = (L.getD (j / M.length) 0 - a) * (L.getD (j / M.length) 0 - a) := by
          rw [heq, hrv]
        have hG2 : mG < (M.getD (j % M.length) 0 - t) * (M.getD (j % M.length) 0 - t) := by
          have := hcs _ hslt
          rw [getD_map_lt _ _ _ hjmod] at this
          exact this
        simp only [decide_eq_false_iff_not]
        intro hcontra
        linarith [hcontra]

theorem closest_eq_of_min (g : Grid) (la lo : ℚ) (m : ℚ)
    (hmin : (distList g la (normLon lo)).min? = some m) :
    closest_lat_lon g la lo =
      (if 1 < m then none
      else some
        ((distList g la (normLon lo)).findIdx (fun z => decide (z = m)) / g.nx,
          (distList g la (normLon lo)).findIdx (fun z => decide (z = m)) % g.nx)) := by
  unfold closest_lat_lon
  rw [hmin]

theorem closest_prod (g : Grid) (L M : List ℚ) (la lo : ℚ) (y x : Nat)
    (hlat : g.lat = L.flatMap (fun v => List.replicate M.length v))
    (hlon : g.lon = L.flatMap (fun _ => M))
    (hnx : g.nx = M.length)
    (hres : closest_lat_lon g la lo = some (y, x)) :
    y = argminFst (L.map (fun v => (v - la) * (v - la))) ∧
    x = argminFst (M.map (fun w => (w - normLon lo) * (w - normLon lo))) := by
  have hd := distList_prod g L M la (normLon lo) hlat hlon
  cases hmin : (distList g la (normLon lo)).min? with
  | none =>
    have hres2 : (none : Option (Nat × Nat)) = some (y, x) := by
      unfold closest_lat_lon at hres
      rw [hmin] at hres
      exact hres
    exact absurd hres2 (by simp)
  | some m =>
    rw [closest_eq_of_min g la lo m hmin] at hres
    rw [hd] at hres hmin
    by_cases hm1 : 1 < m
    · rw [if_pos hm1] at hres
      exact absurd hres (by simp)
    · rw [if_neg hm1] at hres
      have hflat_ne : (L.flatMap (fun v => M.map (fun w =>
          (v - la) * (v - la) + (w - normLon lo) * (w - normLon lo)))) ≠ [] := by
        intro hnil
        rw [hnil] at hmin
        simp at hmin
      have hMne : M ≠ [] := by
        intro hM0
        apply hflat_ne
        rw [List.flatMap_eq_nil_iff]
        intro v hv
        rw [hM0]
        rfl
      have hLne : L ≠ [] := by
        intro hL0
        apply hflat_ne
        rw [hL0]
        rfl
      obtain ⟨mF, hmF⟩ := min_isSome_of_ne_nil
        (L.map (fun v => (v - la) * (v - la))) (by simpa using hLne)
      obtain ⟨mG, hmG⟩ := min_isSome_of_ne_nil
        (M.map (fun w => (w - normLon lo) * (w - normLon lo))) (by simpa using hMne)
      obtain ⟨hminP, hfind⟩ := min_findIdx_prod L M la (normLon lo) mF mG hmF hmG
      have hmeq : m = mF + mG := Option.some.inj (hmin.symm.trans hminP)
      rw [hmeq, hfind, hnx] at hres
      obtain ⟨hca, _, _⟩ := argminFst_spec _ mG hmG
      have hcM : argminFst (M.map (fun w =>
          (w - normLon lo) * (w - normLon lo))) < M.length := by
        rw [← List.length_map M (fun w => (w - normLon lo) * (w - normLon lo))]
        exact hca
      have hn0 : 0 < M.length := Nat.lt_of_le_of_lt (Nat.zero_le _) hcM
      have hdiv : (argminFst (L.map (fun v => (v - la) * (v - la))) * M.length +
          argminFst (M.map (fun w => (w - normLon lo) * (w - normLon lo)))) /
            M.length =
          argminFst (L.map (fun v => (v - la) * (v - la))) := by
        rw [Nat.add_comm, Nat.mul_comm, Nat.add_mul_div_left _ _ hn0,
          Nat.div_eq_of_lt hcM, Nat.zero_add]
      have hmod : (argminFst (L.map (fun v => (v - la) * (v - la))) * M.length +
          argminFst (M.map (fun w => (w - normLon lo) * (w - normLon lo)))) %
            M.length =
          argminFst (M.map (fun w => (w - normLon lo) * (w - normLon lo))) := by
        rw [Nat.add_comm, Nat.mul_comm, Nat.add_mul_mod_self_left,
          Nat.mod_eq_of_lt hcM]
      rw [hdiv, hmod] at hres
      have hres2 := Option.some.inj hres
      exact ⟨(congrArg Prod.fst hres2).symm, (congrArg Prod.snd hres2).symm⟩

/-! ### Claim theorems about the spatial index -/

/-- C8: on an open dataset whose grid has a cell exactly matching the query point
(after the negative-longitude normalization) and no earlier cell matching it, the
nearest-point lookup returns exactly that cell's (y, x) index and the minimum
squared distance is zero; moreover for every query the lookup raises the
out-of-domain error (returns `none`) exactly when the minimum squared angular
distance over all grid cells exceeds 1 square degree. -/
theorem closest_exact_point (g : Grid) (la lo : ℚ) (y x : Nat)
    (hlen : g.lon.length = g.lat.length)
    (hx : x < g.nx) (hi : y * g.nx + x < g.lat.length)
    (hla : g.lat.getD (y * g.nx + x) 0 = la)
    (hlo : g.lon.getD (y * g.nx + x) 0 = normLon lo)
    (hfirst : ∀ j < y * g.nx + x,
      ¬(g.lat.getD j 0 = la ∧ g.lon.getD j 0 = normLon lo)) :
    closest_lat_lon g la lo = some (y, x) ∧
    (distList g la (normLon lo)).min? = some 0 ∧
    (∀ la2 lo2, closest_lat_lon g la2 lo2 = none ↔
      ∃ m, (distList g la2 (normLon lo2)).min? = some m ∧ 1 < m) := by
  have hdlen : ∀ la2 lo2, (distList g la2 lo2).length = g.lat.length := by
    intro la2 lo2
    rw [distList, List.length_zipWith, hlen]
    exact Nat.min_self _
  have hibound : y * g.nx + x < (distList g la (normLon lo)).length := by
    rw [hdlen]
    exact hi
  have hilon : y * g.nx + x < g.lon.length := by
    rw [hlen]
    exact hi
  rw [List.getD_eq_getElem _ _ hi] at hla
  rw [List.getD_eq_getElem _ _ hilon] at hlo
  have hval : (distList g la (normLon lo))[y * g.nx + x] = 0 := by
    simp only [distList, List.getElem_zipWith]
    rw [hla, hlo]
    ring
  have hnn : ∀ z ∈ distList g la (normLon lo), 0 ≤ z := by
    intro z hz
    rw [List.mem_iff_getElem] at hz
    obtain ⟨n, hn, rfl⟩ := hz
    have hn1 : n < g.lat.length := by
      rw [← hdlen la (normLon lo)]
      exact hn
    have hn2 : n < g.lon.length := by
      rw [hlen]
      exact hn1
    simp only [distList, List.getElem_zipWith]
    nlinarith [mul_self_nonneg (g.lat[n] - la), mul_self_nonneg (g.lon[n] - normLon lo)]
  have hmin0 : (distList g la (normLon lo)).min? = some 0 := by
    apply (minQ_eq_some_iff _).mpr
    constructor
    · rw [List.mem_iff_getElem]
      exact ⟨_, hibound, hval⟩
    · exact hnn
  have hfi : (distList g la (normLon lo)).findIdx (fun z => decide (z = 0)) =
      y * g.nx + x := by
    rw [List.findIdx_eq hibound]
    constructor
    · simp [hval]
    · intro j hj
      have hjb : j < (distList g la (normLon lo)).length := lt_trans hj hibound
      have hjlat : j < g.lat.length := by
        rw [← hdlen la (normLon lo)]
        exact hjb
      have hjlon : j < g.lon.length := by
        rw [hlen]
        exact hjlat
      simp only [distList, List.getElem_zipWith]
      simp only [decide_eq_false_iff_not]
      intro hzero
      have h1 : 0 ≤ (g.lat[j] - la) * (g.lat[j] - la) := mul_self_nonneg _
      have h2 : 0 ≤ (g.lon[j] - normLon lo) * (g.lon[j] - normLon lo) :=
        mul_self_nonneg _
      have hz1 : (g.lat[j] - la) * (g.lat[j] - la) = 0 := by linarith
      have hz2 : (g.lon[j] - normLon lo) * (g.lon[j] - normLon lo) = 0 := by
        linarith
      have e1 : g.lat[j] = la := by
        have := mul_self_eq_zero.mp hz1
        linarith
      have e2 : g.lon[j] = normLon lo := by
        have := mul_self_eq_zero.mp hz2
        linarith
      refine hfirst j hj ⟨?_, ?_⟩
      · rw [List.getD_eq_getElem _ _ hjlat]
        exact e1
      · rw [List.getD_eq_getElem _ _ hjlon]
        exact e2
  refine ⟨?_, hmin0, ?_⟩
  · rw [closest_eq_of_min g la lo 0 hmin0, if_neg (by norm_num), hfi]
    have hnx0 : 0 < g.nx := Nat.lt_of_le_of_lt (Nat.zero_le x) hx
    have hdiv : (y * g.nx + x) / g.nx = y := by
      rw [Nat.add_comm, Nat.mul_comm, Nat.add_mul_div_left _ _ hnx0,
        Nat.div_eq_of_lt hx, Nat.zero_add]
    have hmod : (y * g.nx + x) % g.nx = x := by
      rw [Nat.add_comm, Nat.mul_comm, Nat.add_mul_mod_self_left, Nat.mod_eq_of_lt hx]
    rw [hdiv, hmod]
  · intro la2 lo2
    have hne : distList g la2 (normLon lo2) ≠ [] := by
      intro h0
      have hl := hdlen la2 (normLon lo2)
      rw [h0] at hl
      have : g.lat.length = 0 := hl.symm
      omega
    obtain ⟨m2, hm2⟩ := min_isSome_of_ne_nil _ hne
    rw [closest_eq_of_min g la2 lo2 m2 hm2]
    constructor
    · intro hnone
      by_cases h1 : 1 < m2
      · exact ⟨m2, hm2, h1⟩
      · rw [if_neg h1] at hnone
        exact absurd hnone (by simp)
    · rintro ⟨m3, hm3, h13⟩
      have hm23 : m2 = m3 := Option.some.inj (hm2.symm.trans hm3)
      rw [if_pos (by rw [hm23]; exact h13)]

/-- Witness for C8 on a concrete 2-by-2 grid with the query equal to the cell at
row 1, column 0. -/
theorem closest_exact_point_witness :
    closest_lat_lon ⟨[10, 10, 20, 20], [100, 110, 100, 110], 2⟩ 20 100 =
      some (1, 0) ∧
    (distList ⟨[10, 10, 20, 20], [100, 110, 100, 110], 2⟩ 20 (normLon 100)).min? =
      some 0 ∧
    (∀ la2 lo2, closest_lat_lon ⟨[10, 10, 20, 20], [100, 110, 100, 110], 2⟩ la2 lo2 =
        none ↔
      ∃ m, (distList ⟨[10, 10, 20, 20], [100, 110, 100, 110], 2⟩ la2
        (normLon lo2)).min? = some m ∧ 1 < m) :=
  closest_exact_point ⟨[10, 10, 20, 20], [100, 110, 100, 110], 2⟩ 20 100 1 0
    (by norm_num) (by norm_num) (by norm_num)
    (by norm_num [normLon]) (by norm_num [normLon])
    (by
      intro j hj
      interval_cases j <;> norm_num [normLon])

/-- C3, counterexample: on a grid whose rows are inverted relative to increasing
latitude while the `inverse_lat` flag has its default value `false`, the bounding-box
lookup returns the y pair (1, 0), which is not ordered low-to-high. -/
theorem bounds_not_ordered_on_inverted_grid :
    get_xy_bounds_from_latlon ⟨[20, 10], [100, 100], 1⟩ false (10, 20) (100, 100) =
      some ((1, 0), (0, 0)) ∧ ¬(1 ≤ 0) := by
  refine ⟨?_, by omega⟩
  norm_num [get_xy_bounds_from_latlon, closest_lat_lon, normLon, distList,
    List.min?, List.findIdx, List.findIdx.go]

/-- C3, amended: when the `inverse_lat` flag matches the grid's actual row ordering
(rows weakly descending in latitude iff the flag is set), the columns are weakly
ascending in longitude, and the longitude corners keep their order under the
negative-longitude normalization, the bounding-box lookup returns its y-index pair
and x-index pair ordered low-to-high. A mismatched flag (or a longitude range whose
corners swap under normalization) can return a decreasing pair. -/
theorem bounds_ordered (g : Grid) (inverse_lat : Bool) (latlim lonlim : ℚ × ℚ)
    (L M : List ℚ) (y1 y2 x1 x2 : Nat)
    (hlat : g.lat = L.flatMap (fun v => List.replicate M.length v))
    (hlon : g.lon = L.flatMap (fun _ => M))
    (hnx : g.nx = M.length)
    (hM : M.Pairwise (fun u v => u ≤ v))
    (hL : if inverse_lat then L.Pairwise (fun u v => v ≤ u)
      else L.Pairwise (fun u v => u ≤ v))
    (hlo : normLon (min lonlim.1 lonlim.2) ≤ normLon (max lonlim.1 lonlim.2))
    (hres : get_xy_bounds_from_latlon g inverse_lat latlim lonlim =
      some ((y1, y2), (x1, x2))) :
    y1 ≤ y2 ∧ x1 ≤ x2 := by
  unfold get_xy_bounds_from_latlon at hres
  cases h1 : closest_lat_lon g (min latlim.1 latlim.2) (min lonlim.1 lonlim.2) with
  | none =>
    rw [h1] at hres
    simp at hres
  | some p1 =>
    cases h2 : closest_lat_lon g (max latlim.1 latlim.2) (max lonlim.1 lonlim.2) with
    | none =>
      rw [h1, h2] at hres
      simp at hres
    | some p2 =>
      rw [h1, h2] at hres
      obtain ⟨py1, px1⟩ := p1
      obtain ⟨py2, px2⟩ := p2
      obtain ⟨hy1, hx1⟩ := closest_prod g L M _ _ _ _ hlat hlon hnx h1
      obtain ⟨hy2, hx2⟩ := closest_prod g L M _ _ _ _ hlat hlon hnx h2
      have hla : min latlim.1 latlim.2 ≤ max latlim.1 latlim.2 := min_le_max
      cases inverse_lat with
      | false =>
        simp only [Bool.false_eq_true, if_false] at hres hL
        have hres2 := Option.some.inj hres
        have hy : (py1, py2) = (y1, y2) := congrArg Prod.fst hres2
        have hxx : (px1, px2) = (x1, x2) := congrArg Prod.snd hres2
        have ey1 : py1 = y1 := congrArg Prod.fst hy
        have ey2 : py2 = y2 := congrArg Prod.snd hy
        have ex1 : px1 = x1 := congrArg Prod.fst hxx
        have ex2 : px2 = x2 := congrArg Prod.snd hxx
        constructor
        · rw [← ey1, ← ey2, hy1, hy2]
          exact argminFst_sq_mono L hL _ _ hla
        · rw [← ex1, ← ex2, hx1, hx2]
          exact argminFst_sq_mono M hM _ _ hlo
      | true =>
        simp only [if_true] at hres hL
        have hres2 := Option.some.inj hres
        have hy : (py2, py1) = (y1, y2) := congrArg Prod.fst hres2
        have hxx : (px1, px2) = (x1, x2) := congrArg Prod.snd hres2
        have ey1 : py2 = y1 := congrArg Prod.fst hy
        have ey2 : py1 = y2 := congrArg Prod.snd hy
        have ex1 : px1 = x1 := congrArg Prod.fst hxx
        have ex2 : px2 = x2 := congrArg Prod.snd hxx
        constructor
        · rw [← ey1, ← ey2, hy1, hy2]
          exact argminFst_sq_anti L hL _ _ hla
        · rw [← ex1, ← ex2, hx1, hx2]
          exact argminFst_sq_mono M hM _ _ hlo

/-- Witness for C3's amended theorem on a concrete inverted grid with the flag set
correctly. -/
theorem bounds_ordered_witness :
    (0 : Nat) ≤ 1 ∧ (0 : Nat) ≤ 0 :=
  bounds_ordered ⟨[20, 10], [100, 100], 1⟩ true (10, 20) (100, 100) [20, 10] [100]
    0 1 0 0 (by norm_num) (by norm_num) (by norm_num) (by norm_num) (by norm_num)
    (by norm_num [normLon])
    (by norm_num [get_xy_bounds_from_latlon, closest_lat_lon, normLon, distList,
      List.min?, List.findIdx, List.findIdx.go])

/-! ### Claim theorems about ingestion and the facade -/

/-- C10 (implicit): calling `write` with an empty variables list returns immediately
after printing a notice and performs no file-system changes at all — for any
requested dates, members, hours and options. -/
theorem write_empty_variables_no_effect (cfg : NCARConfig)
    (g1tab g2tab : List (String × Nat)) (init_dates members hours : List Nat)
    (opts : WriteOpts) (fs : FileSys) :
    write cfg g1tab g2tab [] init_dates members hours opts fs =
      (fs, [noVariablesNotice]) := rfl

/-- C1, counterexample: a run whose only raw grib file exists and yields the grid
geometry but contains no record matching the requested variable `T2` ends with zero
variables written, yet `write` leaves the archive file on disk (with coordinates,
latitude/longitude and an empty `T2` slot, but an empty list of field writes) instead
of deleting it. -/
theorem write_zero_written_archive_persists :
    fsLookup
      (write defaultNcar [] [("T2", 7)] ["T2"] [2016060100] [1] [0] defaultWriteOpts
        [(LocalFile.plain (RawPath.grib 2016060100 1 0 true),
          FileContent.gribContent [(8, 5)])]).1
      (archivePath 2016060100) =
    some (FileContent.archiveContent ⟨true, true, ["T2"], []⟩) := by decide

/-- Reduction of `writeRun` for a run whose archive does not exist yet. -/
theorem writeRun_eq_fresh (cfg : NCARConfig) (g1tab g2tab : List (String × Nat))
    (varList : List String) (members hours : List Nat) (opts : WriteOpts) (d : Nat)
    (fs : FileSys) (hfresh : fsLookup fs (archivePath d) = none) :
    writeRun cfg g1tab g2tab varList members hours opts d fs =
      (if (processMembers cfg g1tab g2tab varList opts d members hours
            ⟨fs, { Archive.empty with coordsInit := true }, true, []⟩).initCoord then
        (fsRemove (processMembers cfg g1tab g2tab varList opts d members hours
            ⟨fs, { Archive.empty with coordsInit := true }, true, []⟩).fs
          (archivePath d),
          (processMembers cfg g1tab g2tab varList opts d members hours
            ⟨fs, { Archive.empty with coordsInit := true }, true, []⟩).log)
      else
        (fsSet (processMembers cfg g1tab g2tab varList opts d members hours
            ⟨fs, { Archive.empty with coordsInit := true }, true, []⟩).fs
          (archivePath d)
          (FileContent.archiveContent (processMembers cfg g1tab g2tab varList opts d
            members hours
            ⟨fs, { Archive.empty with coordsInit := true }, true, []⟩).arch),
          (processMembers cfg g1tab g2tab varList opts d members hours
            ⟨fs, { Archive.empty with coordsInit := true }, true, []⟩).log)) := by
  unfold writeRun
  rw [hfresh]
  rfl

/-- C1, amended: for a run whose canonical archive is created fresh by this call,
after `writeRun` the archive file exists on disk iff some (member, hour) unit inside
the configured vocabularies had its raw grib file present when the run started — the
archive is deleted exactly when the grid geometry could never be initialized from any
raw file, and zero successfully written variables alone does not cause deletion. -/
theorem writeRun_archive_exists_iff (cfg : NCARConfig)
    (g1tab g2tab : List (String × Nat)) (varList : List String)
    (members hours : List Nat) (opts : WriteOpts) (d : Nat) (fs : FileSys)
    (hfresh : fsLookup fs (archivePath d) = none) :
    (fsLookup (writeRun cfg g1tab g2tab varList members hours opts d fs).1
        (archivePath d)).isSome = true ↔
      ∃ m ∈ members, cfg.member_coord.contains m = true ∧
        ∃ h ∈ hours, cfg.forecast_hour_coord.contains h = true ∧
          gribPresent fs (unitGribPath d m h) = true := by
  rw [writeRun_eq_fresh cfg g1tab g2tab varList members hours opts d fs hfresh]
  set S := processMembers cfg g1tab g2tab varList opts d members hours
    ⟨fs, { Archive.empty with coordsInit := true }, true, []⟩ with hS
  constructor
  · intro hex
    by_contra hno
    push_neg at hno
    have habs : ∀ m ∈ members, cfg.member_coord.contains m = true →
        ∀ h ∈ hours, cfg.forecast_hour_coord.contains h = true →
          gribPresent fs (unitGribPath d m h) = false := by
      intro m hm hmv h hh hhv
      have hne := hno m hm hmv h hh hhv
      cases hb : gribPresent fs (unitGribPath d m h)
      · rfl
      · exact absurd hb hne
    have hic : S.initCoord = true :=
      processMembers_no_geometry cfg g1tab g2tab varList opts d members hours
        ⟨fs, { Archive.empty with coordsInit := true }, true, []⟩ rfl habs
    rw [if_pos hic] at hex
    rw [show (fsRemove S.fs (archivePath d), S.log).1 = fsRemove S.fs (archivePath d)
      from rfl] at hex
    rw [fsLookup_fsRemove] at hex
    simp at hex
  · rintro ⟨m, hm, hmv, h, hh, hhv, hex⟩
    have hic : S.initCoord = false :=
      processMembers_finds_geometry cfg g1tab g2tab varList opts d members hours
        ⟨fs, { Archive.empty with coordsInit := true }, true, []⟩ m h hm hmv hh hhv hex
    simp only [hic, Bool.false_eq_true, if_false]
    rw [fsLookup_fsSet]
    simp

/-- Witness for C1's amended theorem: one valid unit's grib file exists, so the fresh
archive persists after the run. -/
theorem writeRun_archive_exists_iff_witness :
    (fsLookup (writeRun defaultNcar [] [("T2", 7)] ["T2"] [1] [0] defaultWriteOpts
        2016060100
        [(LocalFile.plain (RawPath.grib 2016060100 1 0 true),
          FileContent.gribContent [])]).1
      (archivePath 2016060100)).isSome = true :=
  (writeRun_archive_exists_iff defaultNcar [] [("T2", 7)] ["T2"] [1] [0]
    defaultWriteOpts 2016060100
    [(LocalFile.plain (RawPath.grib 2016060100 1 0 true), FileContent.gribContent [])]
    (by decide)).mpr
    ⟨1, by decide, by decide, 0, by decide, by decide, by decide⟩

/-- `createVariable` does not write any field data. -/
theorem createVar_writes (a : Archive) (v : String) :
    (createVar a v).writes = a.writes := by
  unfold createVar
  split <;> rfl

/-- C4, counterexample: with verbose output disabled, two grib records match the key
of the requested variable `T2`; decoding selects the last record (payload `2`) and
writes it, but no warning at all is logged. -/
theorem grib_multiple_matches_no_warning :
    read_write_grib [("T2", 7)] ["T2"] false 0 0 (RawPath.grib 2016060100 1 0 true)
      ⟨[(LocalFile.plain (RawPath.grib 2016060100 1 0 true),
          FileContent.gribContent [(7, 1), (7, 2)])], Archive.empty, false, []⟩ =
      ⟨[(LocalFile.plain (RawPath.grib 2016060100 1 0 true),
          FileContent.gribContent [(7, 1), (7, 2)])],
        ⟨false, false, ["T2"], [("T2", 0, 0, 2)]⟩, false, []⟩ := by decide

/-- C4, amended: whenever several grib records match one parameter key combination
for a requested variable, the last match is deterministically selected and written —
the ambiguity never causes the variable's decode to be rejected — and the warning
about multiple matches is logged exactly when verbose output is enabled. -/
theorem grib_multiple_matches_last (varList : List String) (verbose : Bool)
    (mi ti : Nat) (recs : List (Nat × Nat)) (s : RunState) (v : String) (k : Nat)
    (hv : varList.contains v = true)
    (hmulti : 2 ≤ (gribSelect recs k).length) :
    ∃ payload, (gribSelect recs k).getLast? = some payload ∧
      (read_write_grib_row varList verbose mi ti recs s (v, k)).arch.writes =
        s.arch.writes ++ [(v, mi, ti, payload)] ∧
      (read_write_grib_row varList verbose mi ti recs s (v, k)).log =
        (if verbose then s.log ++ [multipleMatchWarning v] else s.log) := by
  have hne : gribSelect recs k ≠ [] := by
    intro h
    rw [h] at hmulti
    simp at hmulti
  obtain ⟨payload, hp⟩ := Option.isSome_iff_exists.mp (List.getLast?_isSome.mpr hne)
  refine ⟨payload, hp, ?_, ?_⟩
  · simp only [read_write_grib_row, hv, if_true, hp]
    simp [createVar_writes]
  · have hlen : decide (1 < (gribSelect recs k).length) = true := by
      simp only [decide_eq_true_eq]
      omega
    simp only [read_write_grib_row, hv, if_true, hp, hlen, Bool.and_true]

/-- Witness for C4's amended theorem on a concrete two-match record list. -/
theorem grib_multiple_matches_last_witness :
    ∃ payload, (gribSelect [(7, 1), (7, 2)] 7).getLast? = some payload ∧
      (read_write_grib_row ["T2"] true 0 0 [(7, 1), (7, 2)]
          ⟨[], Archive.empty, false, []⟩ ("T2", 7)).arch.writes =
        (⟨[], Archive.empty, false, []⟩ : RunState).arch.writes ++ [("T2", 0, 0, payload)] ∧
      (read_write_grib_row ["T2"] true 0 0 [(7, 1), (7, 2)]
          ⟨[], Archive.empty, false, []⟩ ("T2", 7)).log =
        (if true then (⟨[], Archive.empty, false, []⟩ : RunState).log ++
          [multipleMatchWarning "T2"] else (⟨[], Archive.empty, false, []⟩ : RunState).log) :=
  grib_multiple_matches_last ["T2"] true 0 0 [(7, 1), (7, 2)]
    ⟨[], Archive.empty, false, []⟩ "T2" 7 (by decide) (by decide)

/-- C9: calling `close` with an open dataset releases it and clears the cached
latitude and longitude grid arrays; calling `close` when no dataset is open raises an
error. -/
theorem close_spec (s : DatasetState) :
    (s.Dataset.isSome = true → close s = Except.ok ⟨none, none, none⟩) ∧
    (s.Dataset = none → close s = Except.error "no Dataset to close") := by
  cases h : s.Dataset with
  | none => simp [close, h]
  | some d => simp [close, h]

/-- Witness for C9 at a concretely open and a concretely closed state. -/
theorem close_spec_witness :
    close ⟨some 1, some [], some []⟩ = Except.ok ⟨none, none, none⟩ ∧
    close ⟨none, none, none⟩ = Except.error "no Dataset to close" :=
  ⟨(close_spec ⟨some 1, some [], some []⟩).1 (by decide),
    (close_spec ⟨none, none, none⟩).2 rfl⟩

end EnsembleNet
